import Mathlib

/-!
# telos.free : free Telos account creation

A shallow embedding of `contracts/telos.free/src/telos.free.cpp`.

* Persistent tables are lists of rows; a row is addressed by its primary key.
* An action either aborts (`Except.error`), in which case the host discards every
  change of the transaction, or returns the new storage together with the inline
  actions it sent, in order.
* Machine integers are `Nat` / `Int` with explicit reduction modulo `2 ^ w`.
* What the host supplies to an action (receiver, authorisations, clock, the system
  contract's RAM market) is gathered in `Context`.
-/

set_option linter.dupNamespace false
set_option linter.unusedVariables false

namespace TelosFree

/-! ## Machine integers -/

/-- Value of a natural number stored in a `uint32_t`. -/
def to_uint32 (n : Nat) : Nat := n % 2 ^ 32

/-- Value of an integer converted to `uint64_t`. -/
def to_uint64 (x : Int) : Nat := (x % 2 ^ 64).toNat

/-- Value of an integer stored in a signed two's-complement field of `bits` bits. -/
def to_signed (bits : Nat) (x : Int) : Int :=
  (x + 2 ^ (bits - 1)) % 2 ^ bits - 2 ^ (bits - 1)

/-- Value of an integer stored in an `int16_t`. -/
def to_int16 (x : Int) : Int := to_signed 16 x

/-- Value of an integer stored in an `int64_t`. -/
def to_int64 (x : Int) : Int := to_signed 64 x

/-! ## Names, symbols, assets (eosio library types) -/

/-- An `eosio::name`: a 64-bit value encoding up to 13 characters. -/
structure name where
  value : Nat
deriving DecidableEq, Repr

/-- The 5-bit code of a character of a name (`eosio::name::char_to_value`);
characters outside `.12345a-z` are rejected by the library and not used here. -/
def char_to_value (c : Char) : Nat :=
  if c = '.' then 0
  else if '1' ≤ c ∧ c ≤ '5' then c.toNat - '1'.toNat + 1
  else if 'a' ≤ c ∧ c ≤ 'z' then c.toNat - 'a'.toNat + 6
  else 0

/-- The name written `"..."_n` in the source, for literals of at most 12 characters:
each character takes 5 bits from the top, the low 4 bits stay clear. -/
def name_of (s : String) : name :=
  let cs := s.toList.take 12
  ⟨(cs.foldl (fun v c => v * 32 + char_to_value c) 0) * 2 ^ (4 + 5 * (12 - cs.length))⟩

/-- One iteration of the loop of `eosio::name::suffix`; the state is
`(remaining_bits_after_last_actual_dot, tmp)`. -/
def suffix_step (value : Nat) (acc : Nat × Nat) (remaining_bits : Nat) : Nat × Nat :=
  if (value >>> remaining_bits) &&& 0x1F = 0 then (acc.1, remaining_bits) else (acc.2, acc.2)

/-- The library function `eosio::name::suffix`: the part of the name after its last
dot that is followed by a character, or the name itself when there is no such dot. -/
def name.suffix (n : name) : name :=
  let acc := [59, 54, 49, 44, 39, 34, 29, 24, 19, 14, 9, 4].foldl (suffix_step n.value) (0, 0)
  let thirteenth_character := n.value &&& 0x0F
  let remaining := if thirteenth_character ≠ 0 then acc.2 else acc.1
  if remaining = 0 then n
  else
    let mask := 2 ^ remaining - 16
    let shift := 64 - remaining
    ⟨((((n.value &&& mask) <<< shift) % 2 ^ 64) + (thirteenth_character <<< (shift - 1))) % 2 ^ 64⟩

/-- The three symbols the contract header declares (`TLOS_symbol`, `RAM_symbol`,
`RAMCORE_symbol`); any other symbol is identified by its raw value. -/
inductive symbol where
  | TLOS
  | RAM
  | RAMCORE
  | other (raw : Nat)
deriving DecidableEq, Repr

/-- An `eosio::asset`: an `int64_t` amount of a symbol. -/
structure asset where
  amount : Int
  sym : symbol
deriving DecidableEq, Repr

/-- A public key, as received in the action data. -/
structure public_key where
  raw : Nat
deriving DecidableEq, Repr

/-! ## Aborts -/

/-- The ways an action can abort. -/
inductive Abort where
  /-- An `eosio::check` whose condition is false, with its message. -/
  | check_failed (msg : String)
  /-- A `require_auth` on an account that did not authorise the action. -/
  | missing_authority (account : name)
  /-- An `emplace` of a row whose primary key is already in the table. -/
  | duplicate_key
  /-- A dereference of the `end()` iterator of a table, whose item pointer is null: an
  invalid access, at which the action is killed. -/
  | invalid_dereference
deriving DecidableEq, Repr

/-- The library function `eosio::check`. -/
def check (cond : Bool) (msg : String) : Except Abort Unit :=
  if cond then .ok () else .error (.check_failed msg)

/-- The constructor `asset(amount, symbol)`, which checks the magnitude of the amount
(the three symbols of the contract are valid symbols). -/
def asset.make (a : Int) (s : symbol) : Except Abort asset := do
  check (decide (-(2 ^ 62 - 1) ≤ a ∧ a ≤ 2 ^ 62 - 1)) "magnitude of asset amount must be less than 2^62"
  pure ⟨a, s⟩

/-! ## Tables -/

/-- Row of the singleton `configuration`; what its fields can hold is given by
`cfg_hour_field` and `cfg_stake_field`. -/
structure freeacctcfg where
  publisher : name
  max_accounts_per_hour : Int
  stake_cpu_tlos_amount : Int
  stake_net_tlos_amount : Int
deriving DecidableEq, Repr

/-- Row of `freeacctslogtable`; `created_on` holds a `uint32_t` number of seconds,
the value `create` stores in it. The row is keyed by the account name, as the rows of
`whitelistedtable` are (the table declarations are in the contract header, which is not
part of the sources). -/
structure freeacctlog where
  account_name : name
  created_on : Nat
deriving DecidableEq, Repr

/-- Row of `whitelistedtable`, keyed by the account name; both counters are
`uint32_t`, as in `addwhitelist`. -/
structure whitelisted where
  account_name : name
  total_accounts : Nat
  max_accounts : Nat
deriving DecidableEq, Repr

/-- Row of the system contract's `rammarket` table, keyed by the symbol of its supply.
`convert` is the row's own conversion (`exchange_state::convert`), which this
contract only calls. -/
structure exchange_state where
  supply : symbol
  convert : asset → symbol → asset

/-- The contract's own tables. `whitelisttable` is the old whitelist, of which the
source only uses the primary keys. -/
structure Storage where
  configuration : Option freeacctcfg
  freeacctslogtable : List freeacctlog
  whitelisttable : List name
  whitelistedtable : List whitelisted
deriving DecidableEq, Repr

/-- The storage of a freshly deployed contract. -/
def Storage.empty : Storage := ⟨none, [], [], []⟩

/-- The method `find` of a table: the row with the given primary key, if any
(`none` stands for the iterator `end()`). -/
def table_find {α κ : Type} [DecidableEq κ] (key : α → κ) (t : List α) (k : κ) : Option α :=
  t.find? (fun r => decide (key r = k))

/-- The dereference `*itr` of an iterator that `find` returned. The source does not
compare the iterator with `end()` first: on `end()` the action does not return. -/
def dereference {α : Type} (itr : Option α) : Except Abort α :=
  match itr with
  | some row => .ok row
  | none => .error .invalid_dereference

/-- The method `emplace` of a table: the host refuses a second row with the same key. -/
def table_emplace {α κ : Type} [DecidableEq κ] (key : α → κ) (t : List α) (r : α) :
    Except Abort (List α) :=
  if (table_find key t (key r)).isSome then .error .duplicate_key else .ok (t ++ [r])

/-- The method `modify` of a table, applied to the row found for key `k`. -/
def table_modify {α κ : Type} [DecidableEq κ] (key : α → κ) (f : α → α) (k : κ) :
    List α → List α
  | [] => []
  | r :: t => if key r = k then f r :: t else r :: table_modify key f k t

/-- The method `erase` of a table, applied to the row found for key `k`. -/
def table_erase {α κ : Type} [DecidableEq κ] (key : α → κ) (t : List α) (k : κ) : List α :=
  t.eraseP (fun r => decide (key r = k))

/-- Primary key of a row of `whitelistedtable`. -/
def whitelisted.primary_key (r : whitelisted) : Nat := r.account_name.value

/-- Primary key of a row of `freeacctslogtable`. -/
def freeacctlog.primary_key (r : freeacctlog) : Nat := r.account_name.value

/-! ## Host context and inline actions -/

/-- What the host supplies to one action: the receiver (`_self`), the accounts that
authorised the action, the block time in seconds, and the `rammarket` table of the
system account. -/
structure Context where
  self : name
  has_auth : name → Bool
  now : Nat
  rammarkettable : List exchange_state

/-- The call `current_time_point().sec_since_epoch()`, a `uint32_t`. -/
def sec_since_epoch (ctx : Context) : Nat := to_uint32 ctx.now

/-- The library function `require_auth`. -/
def require_auth (ctx : Context) (account : name) : Except Abort Unit :=
  if ctx.has_auth account then .ok () else .error (.missing_authority account)

structure permission_level where
  actor : name
  permission : name
deriving DecidableEq, Repr

structure key_weight where
  key : public_key
  weight : Nat
deriving DecidableEq, Repr

structure permission_level_weight where
  permission : permission_level
  weight : Nat
deriving DecidableEq, Repr

structure wait_weight where
  wait_sec : Nat
  weight : Nat
deriving DecidableEq, Repr

structure authority where
  threshold : Nat
  keys : List key_weight
  accounts : List permission_level_weight
  waits : List wait_weight
deriving DecidableEq, Repr

structure newaccount where
  creator : name
  name : name
  owner : authority
  active : authority
deriving DecidableEq, Repr

/-- The data of the three inline actions `create` sends. -/
inductive action_data where
  | newaccount (data : newaccount)
  | buyram (payer receiver : name) (quant : asset)
  | delegatebw (sender receiver : name) (stake_net stake_cpu : asset) (transfer : Bool)
deriving DecidableEq, Repr

/-- An inline action: authorisation, target contract, action name, data. -/
structure action where
  authorization : permission_level
  account : name
  name : name
  data : action_data
deriving DecidableEq, Repr

/-! ## The contract -/

/-- Modelled from the spec: the type of the field `max_accounts_per_hour` of the record
`freeacctcfg`, which is declared in the contract header, not part of the sources. The
spec gives an integer in 0–1000; the field is taken to be an `int16_t`, the type of the
argument that `configure` assigns to it and of the value the constructor stores. -/
def cfg_hour_field (x : Int) : Int := to_int16 x

/-- Modelled from the spec: the type of the fields `stake_cpu_tlos_amount` and
`stake_net_tlos_amount` of the record `freeacctcfg`, which is declared in the contract
header, not part of the sources. The spec gives integers in 100–50000; the fields are
taken to be `int64_t`, the type of the arguments that `configure` assigns to them and of
the asset amounts `create` builds from them. -/
def cfg_stake_field (x : Int) : Int := to_int64 x

/-- Modelled from the spec: the value `freeacctcfg{}` that `getconfig` hands to
`get_or_create`. The in-class initialisers of the record are declared in the contract
header, which is not part of the sources; the spec gives the defaults 50, 9000 and
1000. The publisher is the default `name`, of value 0. -/
def freeacctcfg_default : freeacctcfg := ⟨⟨0⟩, 50, 9000, 1000⟩

namespace freeaccounts

/-- The constructor, run by the dispatcher before every action: it stores the initial
configuration when there is none. -/
def freeaccounts (ctx : Context) (st : Storage) : Storage :=
  match st.configuration with
  | none =>
    { st with configuration := some ⟨ctx.self, cfg_hour_field (to_int16 50),
        cfg_stake_field (to_int16 9000), cfg_stake_field (to_int16 1000)⟩ }
  | some _ => st

/-- The method `getconfig`: `configuration.get_or_create(_self, freeacctcfg{})`. -/
def getconfig (st : Storage) : Storage × freeacctcfg :=
  match st.configuration with
  | some c => (st, c)
  | none => ({ st with configuration := some freeacctcfg_default }, freeacctcfg_default)

/-- The value `secs_since_created` of the loop of `create`: a difference of two
`uint32_t`, widened to `uint64_t`. -/
def secs_since_created (ctx : Context) (account : freeacctlog) : Nat :=
  to_uint32 (sec_since_epoch ctx + 2 ^ 32 - to_uint32 account.created_on)

/-- The loop of `create` over `freeacctslogtable`, giving `accounts_created`. (The
counter is a `uint64_t`; a table has fewer than `2 ^ 64` rows.) -/
def accounts_created (ctx : Context) (log : List freeacctlog) : Nat :=
  log.foldl (fun n account => if secs_since_created ctx account ≤ 3600 then n + 1 else n) 0

/-- The admission step of `create`: the whitelist lookup and the per-account or
hourly threshold that follows it. -/
def admission (ctx : Context) (st : Storage) (config : freeacctcfg) (account_creator : name) :
    Except Abort Storage :=
  match table_find whitelisted.primary_key st.whitelistedtable account_creator.value with
  | none => .error (.check_failed "Account doesn't have permission to create accounts")
  | some w =>
    if w.max_accounts > 0 then do
      let total_accounts := to_uint32 (w.total_accounts + 1)
      check (decide (total_accounts ≤ w.max_accounts))
        "You have exceeded the maximum number of accounts allowed for your account"
      let table := table_modify whitelisted.primary_key
        (fun a => { a with total_accounts := total_accounts }) account_creator.value
        st.whitelistedtable
      pure { st with whitelistedtable := table }
    else do
      check (decide (accounts_created ctx st.freeacctslogtable
          < to_uint64 config.max_accounts_per_hour))
        "You have exceeded the maximum number of accounts per hour"
      pure st

/-- The statement `ram_price.amount = (ram_price.amount * 200 + 199) / 199` on an
`int64_t` (the division truncates toward zero). -/
def add_ram_fee (amount : Int) : Int :=
  Int.tdiv (to_int64 (amount * 200 + 199)) 199

/-- The provisioning part of `create`, after admission: the three inline actions and
the log entry. -/
def provision (ctx : Context) (st : Storage) (config : freeacctcfg)
    (account_creator account_name : name) (owner_pubkey active_pubkey : public_key) :
    Except Abort (Storage × List action) := do
  let newaccount_creator := if account_name.suffix = account_name then ctx.self else account_creator
  let owner_pubkey_weight : key_weight := ⟨owner_pubkey, 1⟩
  let active_pubkey_weight : key_weight := ⟨active_pubkey, 1⟩
  let owner : authority := ⟨1, [owner_pubkey_weight], [], []⟩
  let active : authority := ⟨1, [active_pubkey_weight], [], []⟩
  let new_account : newaccount := ⟨newaccount_creator, account_name, owner, active⟩
  let four_kb := 4096
  let itr := table_find exchange_state.supply ctx.rammarkettable symbol.RAMCORE
  let tmp ← dereference itr
  let four_kb_ram ← asset.make four_kb symbol.RAM
  let ram_price := tmp.convert four_kb_ram symbol.TLOS
  let ram_price : asset := { ram_price with amount := add_ram_fee ram_price.amount }
  let stake_net ← asset.make config.stake_net_tlos_amount symbol.TLOS
  let stake_cpu ← asset.make config.stake_cpu_tlos_amount symbol.TLOS
  let send_newaccount : action :=
    ⟨⟨newaccount_creator, name_of "active"⟩, name_of "eosio", name_of "newaccount",
      .newaccount new_account⟩
  let send_buyram : action :=
    ⟨⟨ctx.self, name_of "active"⟩, name_of "eosio", name_of "buyram",
      .buyram ctx.self account_name ram_price⟩
  let send_delegatebw : action :=
    ⟨⟨ctx.self, name_of "active"⟩, name_of "eosio", name_of "delegatebw",
      .delegatebw ctx.self account_name stake_net stake_cpu false⟩
  let log ← table_emplace freeacctlog.primary_key st.freeacctslogtable
    ⟨account_name, sec_since_epoch ctx⟩
  pure ({ st with freeacctslogtable := log }, [send_newaccount, send_buyram, send_delegatebw])

/-- The action `create`. -/
def create (ctx : Context) (st : Storage) (account_creator account_name : name)
    (owner_pubkey active_pubkey : public_key) ( key_prefix : String) :
    Except Abort (Storage × List action) := do
  require_auth ctx account_creator
  let (st, config) := getconfig st
  let st ← admission ctx st config account_creator
  provision ctx st config account_creator account_name owner_pubkey active_pubkey

/-- The action `addwhitelist`; the two counters are `uint32_t`. -/
def addwhitelist (ctx : Context) (st : Storage) (account_name : name)
    (total_accounts max_accounts : Nat) : Except Abort (Storage × List action) := do
  require_auth ctx ctx.self
  let w := table_find name.value st.whitelisttable account_name.value
  check w.isNone "Account already exists in the whitelist"
  let table ← table_emplace whitelisted.primary_key st.whitelistedtable
    ⟨account_name, to_uint32 total_accounts, to_uint32 max_accounts⟩
  pure ({ st with whitelistedtable := table }, [])

/-- The action `removewlist`. -/
def removewlist (ctx : Context) (st : Storage) (account_name : name) :
    Except Abort (Storage × List action) := do
  require_auth ctx ctx.self
  let w := table_find whitelisted.primary_key st.whitelistedtable account_name.value
  check w.isSome "Account does not exist in the whitelist"
  let table := table_erase whitelisted.primary_key st.whitelistedtable account_name.value
  pure ({ st with whitelistedtable := table }, [])

/-- The action `erasewlist`. -/
def erasewlist (st : Storage) (account : name) : Except Abort (Storage × List action) := do
  let w := table_find name.value st.whitelisttable account.value
  check w.isSome "Account does not exist in the old whitelist"
  let table := table_erase name.value st.whitelisttable account.value
  pure ({ st with whitelisttable := table }, [])

/-- The action `configure`, with an `int16_t` and two `int64_t` arguments. -/
def configure (ctx : Context) (st : Storage)
    (max_accounts_per_hour stake_cpu_tlos_amount stake_net_tlos_amount : Int) :
    Except Abort (Storage × List action) := do
  require_auth ctx ctx.self
  check (decide (max_accounts_per_hour ≥ 0 ∧ max_accounts_per_hour ≤ 1000))
    "Max accounts per hour outside of the range allowed"
  check (decide (stake_cpu_tlos_amount ≥ 100 ∧ stake_cpu_tlos_amount ≤ 50000))
    "Staked TLOS for CPU outside of the range allowed"
  check (decide (stake_net_tlos_amount ≥ 100 ∧ stake_net_tlos_amount ≤ 50000))
    "Staked TLOS for NET outside of the range allowed"
  let (st, config) := getconfig st
  let config := { config with
    max_accounts_per_hour := cfg_hour_field max_accounts_per_hour
    stake_cpu_tlos_amount := cfg_stake_field stake_cpu_tlos_amount
    stake_net_tlos_amount := cfg_stake_field stake_net_tlos_amount }
  pure ({ st with configuration := some config }, [])

end freeaccounts

/-- The actions of the contract with their arguments. -/
inductive Call where
  | create (account_creator account_name : name) (owner_pubkey active_pubkey : public_key)
      ( key_prefix : String)
  | addwhitelist (account_name : name) (total_accounts max_accounts : Nat)
  | removewlist (account_name : name)
  | erasewlist (account : name)
  | configure (max_accounts_per_hour stake_cpu_tlos_amount stake_net_tlos_amount : Int)

/-- The dispatcher: the contract object is constructed, then the action runs on it. -/
def dispatch (ctx : Context) (st : Storage) : Call → Except Abort (Storage × List action)
  | .create account_creator account_name owner_pubkey active_pubkey key_prefix =>
    freeaccounts.create ctx (freeaccounts.freeaccounts ctx st) account_creator account_name
      owner_pubkey active_pubkey key_prefix
  | .addwhitelist account_name total_accounts max_accounts =>
    freeaccounts.addwhitelist ctx (freeaccounts.freeaccounts ctx st) account_name
      total_accounts max_accounts
  | .removewlist account_name =>
    freeaccounts.removewlist ctx (freeaccounts.freeaccounts ctx st) account_name
  | .erasewlist account =>
    freeaccounts.erasewlist (freeaccounts.freeaccounts ctx st) account
  | .configure max_accounts_per_hour stake_cpu_tlos_amount stake_net_tlos_amount =>
    freeaccounts.configure ctx (freeaccounts.freeaccounts ctx st) max_accounts_per_hour
      stake_cpu_tlos_amount stake_net_tlos_amount

/-- The storage after a transaction made of one action: an abort leaves it as it was. -/
def commit (ctx : Context) (st : Storage) (call : Call) : Storage :=
  match dispatch ctx st call with
  | .ok (st', _) => st'
  | .error _ => st

/-- The inline actions a transaction made of one action sends: none when it aborts. -/
def sent (ctx : Context) (st : Storage) (call : Call) : List action :=
  match dispatch ctx st call with
  | .ok (_, acts) => acts
  | .error _ => []

/-- The storages the contract deployed on account `self` can reach from the empty
storage. -/
inductive Reachable (self : name) : Storage → Prop where
  | init : Reachable self Storage.empty
  | step {st : Storage} (ctx : Context) (call : Call) :
      Reachable self st → ctx.self = self → Reachable self (commit ctx st call)

/-- The configuration the contract object holds once constructed: the stored one, or
the initial one the constructor stores. -/
def constructed_config (ctx : Context) (st : Storage) : freeacctcfg :=
  match st.configuration with
  | some c => c
  | none => ⟨ctx.self, cfg_hour_field (to_int16 50), cfg_stake_field (to_int16 9000),
      cfg_stake_field (to_int16 1000)⟩

/-- The magnitude bound the constructor of `asset` checks. -/
def asset_amount_in_range (a : Int) : Prop := -(2 ^ 62 - 1) ≤ a ∧ a ≤ 2 ^ 62 - 1

instance (a : Int) : Decidable (asset_amount_in_range a) := by
  unfold asset_amount_in_range; infer_instance

/-- The row of the RAM market `create` converts with: the row found for `RAMCORE`, if
there is one. -/
def ram_market_row (ctx : Context) : Option exchange_state :=
  table_find exchange_state.supply ctx.rammarkettable symbol.RAMCORE

/-- The base cost of 4096 bytes of RAM: the market conversion `create` calls on the row
it found. -/
def ram_base_cost (ctx : Context) : Option Int :=
  (ram_market_row ctx).map (fun row => (row.convert ⟨4096, symbol.RAM⟩ symbol.TLOS).amount)

/-! ## The spec's own formulations, for comparison with the source -/

/-- Spec side, `currentHourlyCount(now)`: the number of log entries whose `created_on`
lies within the trailing 3600-second window ending at `now`, that is with
`0 ≤ now - created_on ≤ 3600`; an entry dated after `now` is not counted. -/
def currentHourlyCount (now : Nat) (log : List freeacctlog) : Nat :=
  (log.filter (fun e => decide (e.created_on ≤ now ∧ now - e.created_on ≤ 3600))).length

/-- Spec side, the price of the pricing adapter: `ceil(base_cost * 200 / 199)`. -/
def ceil_price (base_cost : Int) : Int := ⌈((base_cost : ℚ) * 200) / 199⌉

/-! ## Inputs used to evaluate the contract -/

/-- A RAM market row whose conversion yields the given base cost. -/
def market_row (base_cost : Int) : exchange_state :=
  ⟨symbol.RAMCORE, fun _ target => ⟨base_cost, target⟩⟩

/-- A context in which every account has authorised the action, at the given time,
with a RAM market yielding the given base cost. -/
def sample_context (self : name) (now : Nat) (base_cost : Int) : Context :=
  ⟨self, fun _ => true, now, [market_row base_cost]⟩

/-- A context in which only `caller` has authorised the action. -/
def caller_context (self caller : name) (now : Nat) (base_cost : Int) : Context :=
  ⟨self, fun a => decide (a = caller), now, [market_row base_cost]⟩

/-- The contract account of the samples, `free.tf`. -/
def sample_self : name := ⟨6761205297852710912⟩

/-- A caller, `alice`. -/
def alice : name := ⟨3773036822876127232⟩

/-- Three account names to create: `bob`, `carol`, `dave`. -/
def bob : name := ⟨4399453885987553280⟩

def carol : name := ⟨4733081447982694400⟩

def dave : name := ⟨5311608732390522880⟩

/-- The storage after `addwhitelist(account_name, total_accounts, max_accounts)` on a
freshly deployed contract. -/
def whitelisted_once (account_name : name) (total_accounts max_accounts : Nat) : Storage :=
  commit (sample_context sample_self 1700000000 100) Storage.empty
    (.addwhitelist account_name total_accounts max_accounts)

/-- A storage in which alice is whitelisted with `max_accounts == 0` and the log holds
three entries: one stored 3700 seconds before time 1700000001, one stored one second
before it and one dated 499 seconds after it. -/
def window_storage : Storage :=
  ⟨some ⟨sample_self, 2, 9000, 1000⟩,
    [⟨bob, 1699996301⟩, ⟨carol, 1700000000⟩, ⟨dave, 1700000500⟩], [], [⟨alice, 7, 0⟩]⟩

/-- A storage in which alice has the row `(0, 5)`, the hourly limit is zero and the log
holds two entries of the current hour. -/
def busy_storage : Storage :=
  ⟨some ⟨sample_self, 0, 9000, 1000⟩, [⟨bob, 1700000000⟩, ⟨carol, 1700000000⟩], [],
    [⟨alice, 0, 5⟩]⟩

/-- Two namespaced account names, `bob.tf` and `carol.tf`, and their namespace `tf`. -/
def bob_tf : name := ⟨4399467818861461504⟩

def carol_tf : name := ⟨4733081461589016576⟩

def tf : name := ⟨14609677191189889024⟩

/-- A storage whose log holds three entries, and the same three in another order. -/
def log_in_order : List freeacctlog :=
  [⟨bob, 1699990000⟩, ⟨carol, 1699999000⟩, ⟨dave, 1700000000⟩]

def log_shuffled : List freeacctlog :=
  [⟨dave, 1700000000⟩, ⟨bob, 1699990000⟩, ⟨carol, 1699999000⟩]

/-- The storage after `addwhitelist(alice, 0, 5)` and `addwhitelist(carol, 2, 0)` on a
freshly deployed contract. -/
def whitelisted_twice : Storage :=
  commit (sample_context sample_self 1700000000 100) (whitelisted_once alice 0 5)
    (.addwhitelist carol 2 0)

/-- The calls whose counters respect the quota invariant: an `addwhitelist` with 32-bit
counters and either `max_accounts = 0` or `total_accounts ≤ max_accounts`; every call
of another action. -/
def counters_consistent : Call → Prop
  | .addwhitelist _ total_accounts max_accounts =>
    total_accounts < 2 ^ 32 ∧ max_accounts < 2 ^ 32 ∧
      (max_accounts = 0 ∨ total_accounts ≤ max_accounts)
  | _ => True

/-- The storages the contract deployed on account `self` can reach from the empty
storage by calls whose counters respect the quota invariant. -/
inductive ReachableConsistent (self : name) : Storage → Prop where
  | init : ReachableConsistent self Storage.empty
  | step {st : Storage} (ctx : Context) (call : Call) :
      ReachableConsistent self st → ctx.self = self → counters_consistent call →
      ReachableConsistent self (commit ctx st call)

/-- A context whose RAM market has no row at all. -/
def marketless_context (self : name) (now : Nat) : Context :=
  ⟨self, fun _ => true, now, []⟩

/-- One `create` request, as the host delivers it: the context of its transaction and
the arguments of the action. -/
structure create_request where
  ctx : Context
  account_creator : name
  account_name : name
  owner_pubkey : public_key
  active_pubkey : public_key
  key_prefix_text : String

/-- The call a request makes. -/
def create_request.call (r : create_request) : Call :=
  .create r.account_creator r.account_name r.owner_pubkey r.active_pubkey r.key_prefix_text

/-- The log entry `create` stores for a request: the requested name and the time of the
request in seconds. -/
def create_request.entry (r : create_request) : freeacctlog :=
  ⟨r.account_name, sec_since_epoch r.ctx⟩

/-- The storage after a sequence of `create` requests, each a transaction of its own. -/
def run_creates (st : Storage) (reqs : List create_request) : Storage :=
  reqs.foldl (fun s r => commit r.ctx s r.call) st

/-- A storage with an empty log in which alice is whitelisted with `max_accounts == 0`
and the hourly limit is 2. -/
def limit_two_storage : Storage :=
  ⟨some ⟨sample_self, 2, 9000, 1000⟩, [], [], [⟨alice, 0, 0⟩]⟩

/-- Three requests of alice within one hour, for `bob`, `carol` and `dave`. -/
def request_bob : create_request :=
  ⟨caller_context sample_self alice 1700000000 100, alice, bob, ⟨1⟩, ⟨2⟩, "EOS"⟩

def request_carol : create_request :=
  ⟨caller_context sample_self alice 1700000100 100, alice, carol, ⟨3⟩, ⟨4⟩, "EOS"⟩

def request_dave : create_request :=
  ⟨caller_context sample_self alice 1700003600 100, alice, dave, ⟨5⟩, ⟨6⟩, "EOS"⟩

def three_requests : List create_request := [request_bob, request_carol, request_dave]

/-- The ranges of the data model for a configuration: `max_accounts_per_hour` in
[0,1000] and both stake amounts in [100,50000]. -/
def freeacctcfg.in_range (c : freeacctcfg) : Prop :=
  (0 ≤ c.max_accounts_per_hour ∧ c.max_accounts_per_hour ≤ 1000) ∧
  (100 ≤ c.stake_cpu_tlos_amount ∧ c.stake_cpu_tlos_amount ≤ 50000) ∧
  (100 ≤ c.stake_net_tlos_amount ∧ c.stake_net_tlos_amount ≤ 50000)

/-- A second request of alice for `bob`, fifty seconds after the first. -/
def request_bob_again : create_request :=
  ⟨caller_context sample_self alice 1700000050 100, alice, bob, ⟨1⟩, ⟨2⟩, "EOS"⟩

/-- Three requests of alice within one hour, the first two for the same name `bob`. -/
def repeated_requests : List create_request := [request_bob, request_bob_again, request_carol]

/-- A request of alice for `bob` while the RAM market has no row. -/
def request_bob_marketless : create_request :=
  ⟨marketless_context sample_self 1700000000, alice, bob, ⟨1⟩, ⟨2⟩, "EOS"⟩

/-! ## The constructor and `getconfig` -/

theorem ctor_whitelistedtable (ctx : Context) (st : Storage) :
    (freeaccounts.freeaccounts ctx st).whitelistedtable = st.whitelistedtable := by
  unfold freeaccounts.freeaccounts; cases st.configuration <;> rfl

theorem ctor_freeacctslogtable (ctx : Context) (st : Storage) :
    (freeaccounts.freeaccounts ctx st).freeacctslogtable = st.freeacctslogtable := by
  unfold freeaccounts.freeaccounts; cases st.configuration <;> rfl

theorem ctor_whitelisttable (ctx : Context) (st : Storage) :
    (freeaccounts.freeaccounts ctx st).whitelisttable = st.whitelisttable := by
  unfold freeaccounts.freeaccounts; cases st.configuration <;> rfl

theorem ctor_configuration (ctx : Context) (st : Storage) :
    (freeaccounts.freeaccounts ctx st).configuration = some (constructed_config ctx st) := by
  unfold freeaccounts.freeaccounts constructed_config; cases h : st.configuration <;> simp [h]

/-- After the constructor `getconfig` never creates a record: it returns the stored one. -/
theorem getconfig_ctor (ctx : Context) (st : Storage) :
    freeaccounts.getconfig (freeaccounts.freeaccounts ctx st)
      = (freeaccounts.freeaccounts ctx st, constructed_config ctx st) := by
  unfold freeaccounts.getconfig; rw [ctor_configuration]

theorem ctor_of_some (ctx : Context) (st : Storage) (c : freeacctcfg)
    (h : st.configuration = some c) : freeaccounts.freeaccounts ctx st = st := by
  unfold freeaccounts.freeaccounts; rw [h]

theorem constructed_config_of_some (ctx : Context) (st : Storage) (c : freeacctcfg)
    (h : st.configuration = some c) : constructed_config ctx st = c := by
  unfold constructed_config; rw [h]

/-! ## `configure` -/

/-- The three range checks of `configure`. -/
theorem configure_eq (ctx : Context) (st : Storage) (m c n : Int)
    (hauth : ctx.has_auth ctx.self = true) :
    dispatch ctx st (.configure m c n) =
      if 0 ≤ m ∧ m ≤ 1000 then
        if 100 ≤ c ∧ c ≤ 50000 then
          if 100 ≤ n ∧ n ≤ 50000 then
            .ok ({ freeaccounts.freeaccounts ctx st with
                    configuration := some { constructed_config ctx st with
                      max_accounts_per_hour := cfg_hour_field m
                      stake_cpu_tlos_amount := cfg_stake_field c
                      stake_net_tlos_amount := cfg_stake_field n } }, [])
          else .error (.check_failed "Staked TLOS for NET outside of the range allowed")
        else .error (.check_failed "Staked TLOS for CPU outside of the range allowed")
      else .error (.check_failed "Max accounts per hour outside of the range allowed") := by
  simp only [dispatch, freeaccounts.configure, require_auth, hauth, getconfig_ctor, check, ge_iff_le]
  by_cases hm : 0 ≤ m ∧ m ≤ 1000
  · by_cases hc : 100 ≤ c ∧ c ≤ 50000
    · by_cases hn : 100 ≤ n ∧ n ≤ 50000
      · simp only [hm, hc, hn]; rfl
      · simp only [hm, hc, hn]; rfl
    · simp only [hm, hc]; rfl
  · simp only [hm]; rfl

theorem to_int16_of_range (x : Int) (h : -32768 ≤ x ∧ x ≤ 32767) : to_int16 x = x := by
  unfold to_int16 to_signed
  have h1 : (x + 2 ^ (16 - 1)) % 2 ^ 16 = x + 2 ^ (16 - 1) := by
    apply Int.emod_eq_of_lt <;> norm_num <;> omega
  rw [h1]; ring

theorem to_int64_of_range (x : Int) (h : -9223372036854775808 ≤ x ∧ x ≤ 9223372036854775807) :
    to_int64 x = x := by
  unfold to_int64 to_signed
  have h1 : (x + 2 ^ (64 - 1)) % 2 ^ 64 = x + 2 ^ (64 - 1) := by
    apply Int.emod_eq_of_lt <;> norm_num <;> omega
  rw [h1]; ring

/-- C6: a `configure` authorised by the contract fails exactly when one of its three
arguments is out of range (`max_accounts_per_hour` outside [0,1000], `stake_cpu` or
`stake_net` outside [100,50000]), and a failed `configure` leaves the storage, hence the
stored configuration, as it was. -/
theorem configure_fails_iff_out_of_range (ctx : Context) (st : Storage) (m c n : Int)
    (hauth : ctx.has_auth ctx.self = true) :
    ((∃ e, dispatch ctx st (.configure m c n) = .error e) ↔
      (m < 0 ∨ 1000 < m) ∨ (c < 100 ∨ 50000 < c) ∨ (n < 100 ∨ 50000 < n)) ∧
    ((∃ e, dispatch ctx st (.configure m c n) = .error e) →
      commit ctx st (.configure m c n) = st ∧
      (commit ctx st (.configure m c n)).configuration = st.configuration) := by
  constructor
  · rw [configure_eq ctx st m c n hauth]
    by_cases hm : 0 ≤ m ∧ m ≤ 1000
    · by_cases hc : 100 ≤ c ∧ c ≤ 50000
      · by_cases hn : 100 ≤ n ∧ n ≤ 50000
        · simp only [hm, hc, hn, and_self, if_true]
          constructor
          · rintro ⟨e, he⟩; cases he
          · intro h; omega
        · simp only [hm, hc, hn, and_self, if_true, if_false]
          constructor
          · intro _; omega
          · intro _; exact ⟨_, rfl⟩
      · simp only [hm, hc, and_self, if_true, if_false]
        constructor
        · intro _; omega
        · intro _; exact ⟨_, rfl⟩
    · simp only [hm, if_false]
      constructor
      · intro _; omega
      · intro _; exact ⟨_, rfl⟩
  · rintro ⟨e, he⟩
    have : commit ctx st (.configure m c n) = st := by simp only [commit, he]
    exact ⟨this, by rw [this]⟩

/-- Witness of C6: authorised by the contract, `configure(1001, 9000, 1000)` fails and
`configure(1000, 50000, 100)` does not. -/
theorem configure_fails_iff_out_of_range_witness :
    (sample_context sample_self 1700000000 100).has_auth
        (sample_context sample_self 1700000000 100).self = true ∧
    (∃ e, dispatch (sample_context sample_self 1700000000 100) Storage.empty
        (.configure 1001 9000 1000) = .error e) ∧
    ¬ (∃ e, dispatch (sample_context sample_self 1700000000 100) Storage.empty
        (.configure 1000 50000 100) = .error e) :=
  ⟨rfl,
    ((configure_fails_iff_out_of_range (sample_context sample_self 1700000000 100)
      Storage.empty 1001 9000 1000 rfl).1).2 (by decide),
    fun h => absurd (((configure_fails_iff_out_of_range
      (sample_context sample_self 1700000000 100) Storage.empty 1000 50000 100 rfl).1).1 h)
      (by decide)⟩

/-! ## `create` -/

/-- An authorised `create` is the admission step followed by the provisioning step,
both with the configuration the constructor left. -/
theorem create_eq (ctx : Context) (st : Storage) (account_creator account_name : name)
    (owner_pubkey active_pubkey : public_key) ( key_prefix : String)
    (hauth : ctx.has_auth account_creator = true) :
    dispatch ctx st (.create account_creator account_name owner_pubkey active_pubkey key_prefix)
      = (freeaccounts.admission ctx (freeaccounts.freeaccounts ctx st) (constructed_config ctx st)
          account_creator).bind
          (fun st1 => freeaccounts.provision ctx st1 (constructed_config ctx st) account_creator
            account_name owner_pubkey active_pubkey) := by
  simp only [dispatch, freeaccounts.create, require_auth, hauth, getconfig_ctor]
  rfl

/-- A `create` that was not authorised by `account_creator` aborts. -/
theorem create_unauthorised (ctx : Context) (st : Storage) (account_creator account_name : name)
    (owner_pubkey active_pubkey : public_key) ( key_prefix : String)
    (hauth : ctx.has_auth account_creator = false) :
    dispatch ctx st (.create account_creator account_name owner_pubkey active_pubkey key_prefix)
      = .error (.missing_authority account_creator) := by
  simp only [dispatch, freeaccounts.create, require_auth, hauth]
  rfl

/-- What a successful `create` went through. -/
theorem create_ok_inv (ctx : Context) (st : Storage) (account_creator account_name : name)
    (owner_pubkey active_pubkey : public_key) ( key_prefix : String) (r : Storage × List action)
    (h : dispatch ctx st
      (.create account_creator account_name owner_pubkey active_pubkey key_prefix) = .ok r) :
    ctx.has_auth account_creator = true ∧
    ∃ st1, freeaccounts.admission ctx (freeaccounts.freeaccounts ctx st) (constructed_config ctx st)
        account_creator = .ok st1 ∧
      freeaccounts.provision ctx st1 (constructed_config ctx st) account_creator account_name
        owner_pubkey active_pubkey = .ok r := by
  cases hauth : ctx.has_auth account_creator with
  | false => rw [create_unauthorised _ _ _ _ _ _ _ hauth] at h; cases h
  | true =>
    refine ⟨rfl, ?_⟩
    rw [create_eq _ _ _ _ _ _ _ hauth] at h
    cases hadm : freeaccounts.admission ctx (freeaccounts.freeaccounts ctx st)
        (constructed_config ctx st) account_creator with
    | error e => rw [hadm] at h; cases h
    | ok st1 => rw [hadm] at h; exact ⟨st1, rfl, h⟩

theorem asset_make_eq (a : Int) (s : symbol) :
    asset.make a s = if asset_amount_in_range a then .ok ⟨a, s⟩
      else .error (.check_failed "magnitude of asset amount must be less than 2^62") := by
  unfold asset.make check asset_amount_in_range
  by_cases h : -(2 ^ 62 - 1) ≤ a ∧ a ≤ 2 ^ 62 - 1
  · simp only [h, and_self, decide_True, if_true]; rfl
  · simp only [h, decide_False, if_false]; rfl

/-- Without a `RAMCORE` row in the RAM market the provisioning step does not return: it
stops at the dereference of the iterator, before anything is sent or stored. -/
theorem provision_no_row (ctx : Context) (st : Storage) (config : freeacctcfg)
    (account_creator account_name : name) (owner_pubkey active_pubkey : public_key)
    (hrow : ram_market_row ctx = none) :
    freeaccounts.provision ctx st config account_creator account_name owner_pubkey active_pubkey
      = .error .invalid_dereference := by
  unfold ram_market_row at hrow
  unfold freeaccounts.provision
  simp only [hrow, dereference]
  rfl

/-- The provisioning step with a `RAMCORE` row in the RAM market, spelled out: the two
stake assets are built, then the three inline actions are sent and the log entry is
stored. -/
theorem provision_eq (ctx : Context) (st : Storage) (config : freeacctcfg)
    (account_creator account_name : name) (owner_pubkey active_pubkey : public_key)
    (row : exchange_state) (hrow : ram_market_row ctx = some row) :
    freeaccounts.provision ctx st config account_creator account_name owner_pubkey active_pubkey =
      if asset_amount_in_range config.stake_net_tlos_amount then
        if asset_amount_in_range config.stake_cpu_tlos_amount then
          if (table_find freeacctlog.primary_key st.freeacctslogtable account_name.value).isSome
          then .error .duplicate_key
          else .ok ({ st with freeacctslogtable :=
                        st.freeacctslogtable ++ [⟨account_name, sec_since_epoch ctx⟩] },
            [⟨⟨if account_name.suffix = account_name then ctx.self else account_creator,
                name_of "active"⟩, name_of "eosio", name_of "newaccount",
                .newaccount ⟨if account_name.suffix = account_name then ctx.self
                    else account_creator, account_name,
                  ⟨1, [⟨owner_pubkey, 1⟩], [], []⟩, ⟨1, [⟨active_pubkey, 1⟩], [], []⟩⟩⟩,
              ⟨⟨ctx.self, name_of "active"⟩, name_of "eosio", name_of "buyram",
                .buyram ctx.self account_name
                  ⟨freeaccounts.add_ram_fee
                      (row.convert ⟨4096, symbol.RAM⟩ symbol.TLOS).amount,
                    (row.convert ⟨4096, symbol.RAM⟩ symbol.TLOS).sym⟩⟩,
              ⟨⟨ctx.self, name_of "active"⟩, name_of "eosio", name_of "delegatebw",
                .delegatebw ctx.self account_name ⟨config.stake_net_tlos_amount, symbol.TLOS⟩
                  ⟨config.stake_cpu_tlos_amount, symbol.TLOS⟩ false⟩])
        else .error (.check_failed "magnitude of asset amount must be less than 2^62")
      else .error (.check_failed "magnitude of asset amount must be less than 2^62") := by
  have h4' : asset_amount_in_range 4096 := by unfold asset_amount_in_range; norm_num
  have hk : (⟨account_name, sec_since_epoch ctx⟩ : freeacctlog).primary_key
      = account_name.value := rfl
  unfold ram_market_row at hrow
  unfold freeaccounts.provision
  simp only [asset_make_eq, table_emplace, hk, hrow, dereference]
  by_cases hn : asset_amount_in_range config.stake_net_tlos_amount
  · by_cases hc : asset_amount_in_range config.stake_cpu_tlos_amount
    · cases hl : (table_find freeacctlog.primary_key st.freeacctslogtable
          account_name.value).isSome
      · simp only [hn, hc, h4', if_true, Bool.false_eq_true, if_false]; rfl
      · simp only [hn, hc, h4', if_true]; rfl
    · simp only [hn, hc, h4', if_true, if_false]; rfl
  · simp only [hn, h4', if_true, if_false]; rfl

/-! ## The admission step -/

theorem admission_absent (ctx : Context) (st : Storage) (config : freeacctcfg) (account_creator : name)
    (h : table_find whitelisted.primary_key st.whitelistedtable account_creator.value = none) :
    freeaccounts.admission ctx st config account_creator
      = .error (.check_failed "Account doesn't have permission to create accounts") := by
  unfold freeaccounts.admission; rw [h]

/-- The admission step for a caller with a positive `max_accounts`. -/
theorem admission_quota (ctx : Context) (st : Storage) (config : freeacctcfg) (account_creator : name)
    (w : whitelisted)
    (h : table_find whitelisted.primary_key st.whitelistedtable account_creator.value = some w)
    (hpos : w.max_accounts > 0) :
    freeaccounts.admission ctx st config account_creator =
      if to_uint32 (w.total_accounts + 1) ≤ w.max_accounts then
        .ok { st with whitelistedtable :=
          (table_modify whitelisted.primary_key
            (fun a => { a with total_accounts := to_uint32 (w.total_accounts + 1) })
            account_creator.value st.whitelistedtable) }
      else .error (.check_failed
        "You have exceeded the maximum number of accounts allowed for your account") := by
  unfold freeaccounts.admission; rw [h]
  simp only [hpos, if_true, check]
  by_cases hle : to_uint32 (w.total_accounts + 1) ≤ w.max_accounts
  · simp only [hle, decide_True, if_true]; rfl
  · simp only [hle, decide_False, if_false]; rfl

/-- The admission step for a caller with `max_accounts == 0`. -/
theorem admission_hourly (ctx : Context) (st : Storage) (config : freeacctcfg) (account_creator : name)
    (w : whitelisted)
    (h : table_find whitelisted.primary_key st.whitelistedtable account_creator.value = some w)
    (hzero : w.max_accounts = 0) :
    freeaccounts.admission ctx st config account_creator =
      if freeaccounts.accounts_created ctx st.freeacctslogtable
          < to_uint64 config.max_accounts_per_hour then .ok st
      else .error (.check_failed "You have exceeded the maximum number of accounts per hour") := by
  unfold freeaccounts.admission; rw [h]
  simp only [hzero, gt_iff_lt, lt_irrefl, if_false, check]
  by_cases hlt : freeaccounts.accounts_created ctx st.freeacctslogtable
      < to_uint64 config.max_accounts_per_hour
  · simp only [hlt, decide_True, if_true]; rfl
  · simp only [hlt, decide_False, if_false]; rfl

/-- The admission step only ever changes `whitelistedtable`. -/
theorem admission_ok_frame (ctx : Context) (st st1 : Storage) (config : freeacctcfg)
    (account_creator : name) (h : freeaccounts.admission ctx st config account_creator = .ok st1) :
    st1.configuration = st.configuration ∧ st1.freeacctslogtable = st.freeacctslogtable ∧
      st1.whitelisttable = st.whitelisttable := by
  cases hw : table_find whitelisted.primary_key st.whitelistedtable account_creator.value with
  | none => rw [admission_absent _ _ _ _ hw] at h; cases h
  | some w =>
    by_cases hpos : w.max_accounts > 0
    · rw [admission_quota _ _ _ _ w hw hpos] at h
      split at h
      · cases h; exact ⟨rfl, rfl, rfl⟩
      · cases h
    · have hzero : w.max_accounts = 0 := by omega
      rw [admission_hourly _ _ _ _ w hw hzero] at h
      split at h
      · cases h; exact ⟨rfl, rfl, rfl⟩
      · cases h

/-- A successful provisioning step found a `RAMCORE` row, sent three actions and
appended one log entry. -/
theorem provision_ok_inv (ctx : Context) (st : Storage) (config : freeacctcfg)
    (account_creator account_name : name) (owner_pubkey active_pubkey : public_key)
    (r : Storage × List action)
    (h : freeaccounts.provision ctx st config account_creator account_name owner_pubkey
      active_pubkey = .ok r) :
    r.1 = { st with freeacctslogtable :=
              st.freeacctslogtable ++ [⟨account_name, sec_since_epoch ctx⟩] } ∧
    ∃ row, ram_market_row ctx = some row ∧
    r.2 = [⟨⟨if account_name.suffix = account_name then ctx.self else account_creator,
                name_of "active"⟩, name_of "eosio", name_of "newaccount",
                .newaccount ⟨if account_name.suffix = account_name then ctx.self
                    else account_creator, account_name,
                  ⟨1, [⟨owner_pubkey, 1⟩], [], []⟩, ⟨1, [⟨active_pubkey, 1⟩], [], []⟩⟩⟩,
              ⟨⟨ctx.self, name_of "active"⟩, name_of "eosio", name_of "buyram",
                .buyram ctx.self account_name
                  ⟨freeaccounts.add_ram_fee
                      (row.convert ⟨4096, symbol.RAM⟩ symbol.TLOS).amount,
                    (row.convert ⟨4096, symbol.RAM⟩ symbol.TLOS).sym⟩⟩,
              ⟨⟨ctx.self, name_of "active"⟩, name_of "eosio", name_of "delegatebw",
                .delegatebw ctx.self account_name ⟨config.stake_net_tlos_amount, symbol.TLOS⟩
                  ⟨config.stake_cpu_tlos_amount, symbol.TLOS⟩ false⟩] := by
  cases hrow : ram_market_row ctx with
  | none => rw [provision_no_row _ _ _ _ _ _ _ hrow] at h; cases h
  | some row =>
    rw [provision_eq _ _ _ _ _ _ _ row hrow] at h
    split at h
    · split at h
      · split at h
        · cases h
        · cases h; exact ⟨rfl, row, rfl, rfl⟩
      · cases h
    · cases h

/-! ## What `configure` stores -/

/-- C7: for `max_accounts_per_hour` in [0,1000] and stake amounts in [100,50000], a
`configure` authorised by the contract succeeds; `getconfig` then reads back exactly
these three values, without creating a record; and every later successful `create`
stakes exactly these amounts (net, then cpu, not transferred). -/
theorem configure_persists_exactly (ctx : Context) (st : Storage) (m c n : Int)
    (hauth : ctx.has_auth ctx.self = true)
    (hm : 0 ≤ m ∧ m ≤ 1000) (hc : 100 ≤ c ∧ c ≤ 50000) (hn : 100 ≤ n ∧ n ≤ 50000) :
    ∃ st', dispatch ctx st (.configure m c n) = .ok (st', []) ∧
      (freeaccounts.getconfig st').1 = st' ∧
      (freeaccounts.getconfig st').2.max_accounts_per_hour = m ∧
      (freeaccounts.getconfig st').2.stake_cpu_tlos_amount = c ∧
      (freeaccounts.getconfig st').2.stake_net_tlos_amount = n ∧
      ∀ (ctx' : Context) (account_creator account_name : name)
        (owner_pubkey active_pubkey : public_key) ( key_prefix : String)
        (st'' : Storage) (acts : List action),
        dispatch ctx' st'
          (.create account_creator account_name owner_pubkey active_pubkey key_prefix)
          = .ok (st'', acts) →
        ∃ a1 a2, acts = [a1, a2,
          ⟨⟨ctx'.self, name_of "active"⟩, name_of "eosio", name_of "delegatebw",
            .delegatebw ctx'.self account_name ⟨n, symbol.TLOS⟩ ⟨c, symbol.TLOS⟩ false⟩] := by
  have h16 : cfg_hour_field m = m := to_int16_of_range m (by omega)
  have hc64 : cfg_stake_field c = c := to_int64_of_range c (by omega)
  have hn64 : cfg_stake_field n = n := to_int64_of_range n (by omega)
  refine ⟨{ freeaccounts.freeaccounts ctx st with
      configuration := some { constructed_config ctx st with
        max_accounts_per_hour := cfg_hour_field m
        stake_cpu_tlos_amount := cfg_stake_field c
        stake_net_tlos_amount := cfg_stake_field n } }, ?_, ?_, ?_, ?_, ?_, ?_⟩
  · rw [configure_eq ctx st m c n hauth, if_pos hm, if_pos hc, if_pos hn]
  · rfl
  · exact h16
  · exact hc64
  · exact hn64
  · intro ctx' account_creator account_name owner_pubkey active_pubkey key_prefix st'' acts h
    obtain ⟨_, st1, _, hp⟩ := create_ok_inv _ _ _ _ _ _ _ _ h
    rw [constructed_config_of_some ctx' _ _ rfl] at hp
    obtain ⟨row, _, h2⟩ := (provision_ok_inv _ _ _ _ _ _ _ _ hp).2
    simp only [hc64, hn64] at h2
    exact ⟨_, _, h2⟩

/-- Witness of C7: `configure(1000, 50000, 100)` on a contract that whitelisted alice. -/
theorem configure_persists_exactly_witness :
    (sample_context sample_self 1700000000 100).has_auth
        (sample_context sample_self 1700000000 100).self = true ∧
    ((0 : Int) ≤ 1000 ∧ (1000 : Int) ≤ 1000) ∧ ((100 : Int) ≤ 50000 ∧ (50000 : Int) ≤ 50000) ∧
    ((100 : Int) ≤ 100 ∧ (100 : Int) ≤ 50000) ∧
    ∃ st', dispatch (sample_context sample_self 1700000000 100) (whitelisted_once alice 0 5)
        (.configure 1000 50000 100) = .ok (st', []) ∧
      (freeaccounts.getconfig st').1 = st' ∧
      (freeaccounts.getconfig st').2.max_accounts_per_hour = 1000 ∧
      (freeaccounts.getconfig st').2.stake_cpu_tlos_amount = 50000 ∧
      (freeaccounts.getconfig st').2.stake_net_tlos_amount = 100 ∧
      ∀ (ctx' : Context) (account_creator account_name : name)
        (owner_pubkey active_pubkey : public_key) ( key_prefix : String)
        (st'' : Storage) (acts : List action),
        dispatch ctx' st'
          (.create account_creator account_name owner_pubkey active_pubkey key_prefix)
          = .ok (st'', acts) →
        ∃ a1 a2, acts = [a1, a2,
          ⟨⟨ctx'.self, name_of "active"⟩, name_of "eosio", name_of "delegatebw",
            .delegatebw ctx'.self account_name ⟨100, symbol.TLOS⟩ ⟨50000, symbol.TLOS⟩ false⟩] :=
  ⟨rfl, by decide, by decide, by decide,
    configure_persists_exactly (sample_context sample_self 1700000000 100)
      (whitelisted_once alice 0 5) 1000 50000 100 rfl (by decide) (by decide) (by decide)⟩

/-- A `create` that follows `configure(1000, 50000, 100)` does succeed, and stakes 100
for net and 50000 for cpu. -/
theorem create_after_configure_sample :
    (dispatch (sample_context sample_self 1700000000 100)
      (commit (sample_context sample_self 1700000000 100) (whitelisted_once alice 0 5)
        (.configure 1000 50000 100))
      (.create alice bob ⟨1⟩ ⟨2⟩ "EOS")).toOption.map (fun r => r.2.drop 2)
    = some [⟨⟨sample_self, name_of "active"⟩, name_of "eosio", name_of "delegatebw",
        .delegatebw sample_self bob ⟨100, symbol.TLOS⟩ ⟨50000, symbol.TLOS⟩ false⟩] := by
  rfl

/-! ## The administrative actions -/

/-- An action that requires the contract's authority aborts without it. -/
theorem configure_unauthorised (ctx : Context) (st : Storage) (m c n : Int)
    (hauth : ctx.has_auth ctx.self = false) :
    dispatch ctx st (.configure m c n) = .error (.missing_authority ctx.self) := by
  simp only [dispatch, freeaccounts.configure, require_auth, hauth]
  rfl

theorem addwhitelist_unauthorised (ctx : Context) (st : Storage) (account_name : name)
    (total_accounts max_accounts : Nat) (hauth : ctx.has_auth ctx.self = false) :
    dispatch ctx st (.addwhitelist account_name total_accounts max_accounts)
      = .error (.missing_authority ctx.self) := by
  simp only [dispatch, freeaccounts.addwhitelist, require_auth, hauth]
  rfl

theorem removewlist_unauthorised (ctx : Context) (st : Storage) (account_name : name)
    (hauth : ctx.has_auth ctx.self = false) :
    dispatch ctx st (.removewlist account_name) = .error (.missing_authority ctx.self) := by
  simp only [dispatch, freeaccounts.removewlist, require_auth, hauth]
  rfl

/-- The action `addwhitelist`, spelled out: the check reads the old `whitelisttable`,
the row goes into `whitelistedtable`. -/
theorem addwhitelist_eq (ctx : Context) (st : Storage) (account_name : name)
    (total_accounts max_accounts : Nat) (hauth : ctx.has_auth ctx.self = true) :
    dispatch ctx st (.addwhitelist account_name total_accounts max_accounts) =
      if (table_find name.value st.whitelisttable account_name.value).isNone then
        if (table_find whitelisted.primary_key st.whitelistedtable account_name.value).isSome
        then .error .duplicate_key
        else .ok ({ freeaccounts.freeaccounts ctx st with whitelistedtable :=
            (st.whitelistedtable
              ++ [⟨account_name, to_uint32 total_accounts, to_uint32 max_accounts⟩]) }, [])
      else .error (.check_failed "Account already exists in the whitelist") := by
  have hk : (⟨account_name, to_uint32 total_accounts, to_uint32 max_accounts⟩ :
      whitelisted).primary_key = account_name.value := rfl
  simp only [dispatch, freeaccounts.addwhitelist, require_auth, hauth, check, table_emplace,
    ctor_whitelisttable, ctor_whitelistedtable, hk]
  cases h1 : (table_find name.value st.whitelisttable account_name.value).isNone
  · simp only [Bool.false_eq_true, if_false]; rfl
  · cases h2 : (table_find whitelisted.primary_key st.whitelistedtable account_name.value).isSome
    · simp only [Bool.false_eq_true, if_true, if_false]; rfl
    · simp only [if_true]; rfl

/-- The action `removewlist`, spelled out. -/
theorem removewlist_eq (ctx : Context) (st : Storage) (account_name : name)
    (hauth : ctx.has_auth ctx.self = true) :
    dispatch ctx st (.removewlist account_name) =
      if (table_find whitelisted.primary_key st.whitelistedtable account_name.value).isSome then
        .ok ({ freeaccounts.freeaccounts ctx st with whitelistedtable :=
          (table_erase whitelisted.primary_key st.whitelistedtable account_name.value) }, [])
      else .error (.check_failed "Account does not exist in the whitelist") := by
  simp only [dispatch, freeaccounts.removewlist, require_auth, hauth, check,
    ctor_whitelistedtable]
  cases h1 : (table_find whitelisted.primary_key st.whitelistedtable account_name.value).isSome
  · simp only [Bool.false_eq_true, if_false]; rfl
  · simp only [if_true]; rfl

/-- The action `erasewlist`, spelled out. -/
theorem erasewlist_eq (ctx : Context) (st : Storage) (account : name) :
    dispatch ctx st (.erasewlist account) =
      if (table_find name.value st.whitelisttable account.value).isSome then
        .ok ({ freeaccounts.freeaccounts ctx st with whitelisttable :=
          (table_erase name.value st.whitelisttable account.value) }, [])
      else .error (.check_failed "Account does not exist in the old whitelist") := by
  simp only [dispatch, freeaccounts.erasewlist, check, ctor_whitelisttable]
  cases h1 : (table_find name.value st.whitelisttable account.value).isSome
  · simp only [Bool.false_eq_true, if_false]; rfl
  · simp only [if_true]; rfl

/-! ## The publisher -/

/-- Every action that succeeds leaves a configuration in place, with the publisher the
constructed contract had. -/
theorem dispatch_ok_publisher (ctx : Context) (st : Storage) (call : Call)
    (r : Storage × List action) (h : dispatch ctx st call = .ok r) :
    ∃ c, r.1.configuration = some c ∧ c.publisher = (constructed_config ctx st).publisher := by
  cases call with
  | create account_creator account_name owner_pubkey active_pubkey key_prefix =>
    obtain ⟨_, st1, hadm, hp⟩ := create_ok_inv _ _ _ _ _ _ _ _ h
    have h1 := (provision_ok_inv _ _ _ _ _ _ _ _ hp).1
    have h2 := (admission_ok_frame _ _ _ _ _ hadm).1
    refine ⟨constructed_config ctx st, ?_, rfl⟩
    rw [h1]
    show st1.configuration = _
    rw [h2, ctor_configuration]
  | addwhitelist account_name total_accounts max_accounts =>
    cases hauth : ctx.has_auth ctx.self with
    | false => rw [addwhitelist_unauthorised _ _ _ _ _ hauth] at h; cases h
    | true =>
      rw [addwhitelist_eq _ _ _ _ _ hauth] at h
      split at h
      · split at h
        · cases h
        · cases h; exact ⟨constructed_config ctx st, ctor_configuration ctx st, rfl⟩
      · cases h
  | removewlist account_name =>
    cases hauth : ctx.has_auth ctx.self with
    | false => rw [removewlist_unauthorised _ _ _ hauth] at h; cases h
    | true =>
      rw [removewlist_eq _ _ _ hauth] at h
      split at h
      · cases h; exact ⟨constructed_config ctx st, ctor_configuration ctx st, rfl⟩
      · cases h
  | erasewlist account =>
    rw [erasewlist_eq] at h
    split at h
    · cases h; exact ⟨constructed_config ctx st, ctor_configuration ctx st, rfl⟩
    · cases h
  | configure m c n =>
    cases hauth : ctx.has_auth ctx.self with
    | false => rw [configure_unauthorised _ _ _ _ _ hauth] at h; cases h
    | true =>
      rw [configure_eq _ _ _ _ _ hauth] at h
      split at h
      · split at h
        · split at h
          · cases h; exact ⟨_, rfl, rfl⟩
          · cases h
        · cases h
      · cases h

/-- In every reachable storage the stored publisher, when there is a configuration, is
the contract account. -/
theorem reachable_publisher (self : name) (st : Storage) (h : Reachable self st) :
    ∀ c, st.configuration = some c → c.publisher = self := by
  induction h with
  | init => intro c hc; cases hc
  | @step st ctx call _ hself ih =>
    intro c hc
    unfold commit at hc
    cases hd : dispatch ctx st call with
    | error e => rw [hd] at hc; exact ih c hc
    | ok r =>
      rw [hd] at hc
      obtain ⟨c', hc', hp⟩ := dispatch_ok_publisher ctx st call r hd
      have hcc : c = c' := by
        have : some c = some c' := by rw [← hc, ← hc']
        exact Option.some.inj this
      rw [hcc, hp]
      unfold constructed_config
      cases hcfg : st.configuration with
      | none => exact hself
      | some c0 => exact ih c0 hcfg

/-- C8: in every reachable storage, the publisher of the configuration that `configure`
reads is the contract account, as is the publisher of any stored configuration; so a
`configure` that succeeds was authorised by the publisher, and one that the publisher did
not authorise fails with the missing-authority abort and changes nothing. -/
theorem configure_requires_publisher (self : name) (st : Storage) (hreach : Reachable self st)
    (ctx : Context) (hself : ctx.self = self) (m c n : Int) :
    (freeaccounts.getconfig (freeaccounts.freeaccounts ctx st)).2.publisher = ctx.self ∧
    (∀ cfg, st.configuration = some cfg → cfg.publisher = ctx.self) ∧
    ((∃ r, dispatch ctx st (.configure m c n) = .ok r) →
      ctx.has_auth (freeaccounts.getconfig (freeaccounts.freeaccounts ctx st)).2.publisher
        = true) ∧
    (ctx.has_auth (freeaccounts.getconfig (freeaccounts.freeaccounts ctx st)).2.publisher = false →
      dispatch ctx st (.configure m c n) = .error (.missing_authority
        (freeaccounts.getconfig (freeaccounts.freeaccounts ctx st)).2.publisher) ∧
      commit ctx st (.configure m c n) = st) := by
  have hall : ∀ cfg, st.configuration = some cfg → cfg.publisher = ctx.self := by
    intro cfg hcfg; rw [hself]; exact reachable_publisher self st hreach cfg hcfg
  have hpub : (freeaccounts.getconfig (freeaccounts.freeaccounts ctx st)).2.publisher
      = ctx.self := by
    rw [getconfig_ctor]
    show (constructed_config ctx st).publisher = ctx.self
    unfold constructed_config
    cases hcfg : st.configuration with
    | none => rfl
    | some c0 => exact hall c0 hcfg
  refine ⟨hpub, hall, ?_, ?_⟩
  · rintro ⟨r, hr⟩
    rw [hpub]
    cases hauth : ctx.has_auth ctx.self with
    | false => rw [configure_unauthorised _ _ _ _ _ hauth] at hr; cases hr
    | true => rfl
  · intro hno
    rw [hpub] at hno ⊢
    have hd := configure_unauthorised ctx st m c n hno
    exact ⟨hd, by simp only [commit, hd]⟩

/-- Witness of C8: on the storage reached by one `addwhitelist`, a `configure` that only
alice authorised. -/
theorem configure_requires_publisher_witness :
    Reachable sample_self (whitelisted_once alice 0 5) ∧
    (caller_context sample_self alice 1700000000 100).self = sample_self ∧
    (freeaccounts.getconfig (freeaccounts.freeaccounts
      (caller_context sample_self alice 1700000000 100) (whitelisted_once alice 0 5))).2.publisher
      = sample_self ∧
    dispatch (caller_context sample_self alice 1700000000 100) (whitelisted_once alice 0 5)
      (.configure 10 100 100) = .error (.missing_authority sample_self) :=
  ⟨Reachable.step _ _ Reachable.init rfl, rfl,
    (configure_requires_publisher sample_self (whitelisted_once alice 0 5)
      (Reachable.step _ _ Reachable.init rfl)
      (caller_context sample_self alice 1700000000 100) rfl 10 100 100).1,
    ((configure_requires_publisher sample_self (whitelisted_once alice 0 5)
      (Reachable.step _ _ Reachable.init rfl)
      (caller_context sample_self alice 1700000000 100) rfl 10 100 100).2.2.2 rfl).1⟩

/-! ## Callers that are not whitelisted -/

/-- C5: when `account_creator` authorised the action and has no row in
`whitelistedtable`, `create` aborts with "Account doesn't have permission to create
accounts", sends no inline action and leaves the whole storage (configuration, whitelist
and log) as it was. -/
theorem create_not_whitelisted (ctx : Context) (st : Storage) (account_creator account_name : name)
    (owner_pubkey active_pubkey : public_key) ( key_prefix : String)
    (hauth : ctx.has_auth account_creator = true)
    (habsent : table_find whitelisted.primary_key st.whitelistedtable account_creator.value
      = none) :
    dispatch ctx st (.create account_creator account_name owner_pubkey active_pubkey key_prefix)
        = .error (.check_failed "Account doesn't have permission to create accounts") ∧
      sent ctx st (.create account_creator account_name owner_pubkey active_pubkey key_prefix)
        = [] ∧
      commit ctx st (.create account_creator account_name owner_pubkey active_pubkey key_prefix)
        = st := by
  have h : dispatch ctx st
      (.create account_creator account_name owner_pubkey active_pubkey key_prefix)
      = .error (.check_failed "Account doesn't have permission to create accounts") := by
    rw [create_eq ctx st _ _ _ _ _ hauth, admission_absent]
    · rfl
    · rw [ctor_whitelistedtable]; exact habsent
  refine ⟨h, ?_, ?_⟩
  · simp only [sent, h]
  · simp only [commit, h]

/-- Witness of C5: carol calls `create` on a contract that whitelisted only alice. -/
theorem create_not_whitelisted_witness :
    (sample_context sample_self 1700000000 100).has_auth carol = true ∧
    table_find whitelisted.primary_key (whitelisted_once alice 0 5).whitelistedtable carol.value
      = none ∧
    dispatch (sample_context sample_self 1700000000 100) (whitelisted_once alice 0 5)
        (.create carol bob ⟨1⟩ ⟨2⟩ "EOS")
      = .error (.check_failed "Account doesn't have permission to create accounts") ∧
    sent (sample_context sample_self 1700000000 100) (whitelisted_once alice 0 5)
        (.create carol bob ⟨1⟩ ⟨2⟩ "EOS") = [] ∧
    commit (sample_context sample_self 1700000000 100) (whitelisted_once alice 0 5)
        (.create carol bob ⟨1⟩ ⟨2⟩ "EOS") = whitelisted_once alice 0 5 :=
  ⟨rfl, rfl, create_not_whitelisted (sample_context sample_self 1700000000 100)
    (whitelisted_once alice 0 5) carol bob ⟨1⟩ ⟨2⟩ "EOS" rfl rfl⟩

/-! ## Tables -/

theorem table_find_modify {α κ : Type} [DecidableEq κ] (key : α → κ) (f : α → α) (k : κ)
    (hf : ∀ r, key (f r) = key r) (t : List α) :
    table_find key (table_modify key f k t) k = (table_find key t k).map f := by
  induction t with
  | nil => rfl
  | cons r t ih =>
    unfold table_modify
    by_cases hr : key r = k
    · simp only [hr, if_true, table_find, List.find?, hf, decide_True, Option.map]
    · have h1 : table_find key (r :: table_modify key f k t) k
          = table_find key (table_modify key f k t) k := by
        simp only [table_find, List.find?, hr, decide_False]
      have h2 : table_find key (r :: t) k = table_find key t k := by
        simp only [table_find, List.find?, hr, decide_False]
      rw [if_neg hr, h1, h2, ih]

/-! ## The two tiers -/

/-- C4: when two storages hold the same row for the caller, with `max_accounts > 0`, the
admission step gives the same outcome in both (the same abort, or success in both) and
the same new row for the caller, whatever the two logs, the two times and the two
configurations are. -/
theorem admission_quota_ignores_hourly_limit (ctx₁ ctx₂ : Context) (st₁ st₂ : Storage)
    (config₁ config₂ : freeacctcfg) (account_creator : name) (w : whitelisted)
    (h₁ : table_find whitelisted.primary_key st₁.whitelistedtable account_creator.value = some w)
    (h₂ : table_find whitelisted.primary_key st₂.whitelistedtable account_creator.value = some w)
    (hpos : w.max_accounts > 0) :
    (∀ e, freeaccounts.admission ctx₁ st₁ config₁ account_creator = .error e ↔
      freeaccounts.admission ctx₂ st₂ config₂ account_creator = .error e) ∧
    ((∃ s, freeaccounts.admission ctx₁ st₁ config₁ account_creator = .ok s) ↔
      (∃ s, freeaccounts.admission ctx₂ st₂ config₂ account_creator = .ok s)) ∧
    (∀ s₁ s₂, freeaccounts.admission ctx₁ st₁ config₁ account_creator = .ok s₁ →
      freeaccounts.admission ctx₂ st₂ config₂ account_creator = .ok s₂ →
      table_find whitelisted.primary_key s₁.whitelistedtable account_creator.value
        = table_find whitelisted.primary_key s₂.whitelistedtable account_creator.value ∧
      table_find whitelisted.primary_key s₁.whitelistedtable account_creator.value
        = some { w with total_accounts := to_uint32 (w.total_accounts + 1) }) := by
  rw [admission_quota ctx₁ st₁ config₁ account_creator w h₁ hpos,
    admission_quota ctx₂ st₂ config₂ account_creator w h₂ hpos]
  by_cases hle : to_uint32 (w.total_accounts + 1) ≤ w.max_accounts
  · simp only [hle, if_true]
    refine ⟨?_, ?_, ?_⟩
    · intro e; constructor <;> intro h <;> cases h
    · constructor <;> intro _ <;> exact ⟨_, rfl⟩
    · intro s₁ s₂ hs₁ hs₂
      cases hs₁; cases hs₂
      have hk : ∀ r : whitelisted, whitelisted.primary_key
          { r with total_accounts := to_uint32 (w.total_accounts + 1) }
          = whitelisted.primary_key r := fun _ => rfl
      simp only [table_find_modify whitelisted.primary_key _ _ hk, h₁, h₂, Option.map,
        and_self]
  · rw [if_neg hle, if_neg hle]
    refine ⟨fun e => Iff.rfl, Iff.rfl, ?_⟩
    intro s₁ s₂ hs₁; cases hs₁

/-- Witness of C4: alice's row `(0, 5)` in a storage with an empty log and the default
limit, and in one whose log is over an hourly limit of zero. -/
theorem admission_quota_ignores_hourly_limit_witness :
    table_find whitelisted.primary_key (whitelisted_once alice 0 5).whitelistedtable alice.value
      = some ⟨alice, 0, 5⟩ ∧
    table_find whitelisted.primary_key busy_storage.whitelistedtable alice.value
      = some ⟨alice, 0, 5⟩ ∧
    (⟨alice, 0, 5⟩ : whitelisted).max_accounts > 0 ∧
    ((∃ s, freeaccounts.admission (sample_context sample_self 1700000000 100)
        (whitelisted_once alice 0 5) ⟨sample_self, 50, 9000, 1000⟩ alice = .ok s) ↔
      (∃ s, freeaccounts.admission (sample_context sample_self 1700000001 100)
        busy_storage ⟨sample_self, 0, 9000, 1000⟩ alice = .ok s)) :=
  ⟨rfl, rfl, by decide,
    (admission_quota_ignores_hourly_limit (sample_context sample_self 1700000000 100)
      (sample_context sample_self 1700000001 100) (whitelisted_once alice 0 5) busy_storage
      ⟨sample_self, 50, 9000, 1000⟩ ⟨sample_self, 0, 9000, 1000⟩ alice ⟨alice, 0, 5⟩
      rfl rfl (by decide)).2.1⟩

/-! ## The hourly threshold -/

theorem accounts_created_foldl (ctx : Context) (log : List freeacctlog) (k : Nat) :
    log.foldl (fun n account =>
        if freeaccounts.secs_since_created ctx account ≤ 3600 then n + 1 else n) k
      = k + (log.filter
          (fun e => decide (freeaccounts.secs_since_created ctx e ≤ 3600))).length := by
  induction log generalizing k with
  | nil => rfl
  | cons e log ih =>
    rw [List.foldl_cons, ih]
    by_cases he : freeaccounts.secs_since_created ctx e ≤ 3600
    · simp only [he, if_true, List.filter_cons, decide_True, List.length_cons]; omega
    · simp only [he, if_false, List.filter_cons, decide_False]
      rfl

/-- The loop of `create` counts the entries that are at most 3600 seconds old in
`uint32_t` arithmetic. -/
theorem accounts_created_eq (ctx : Context) (log : List freeacctlog) :
    freeaccounts.accounts_created ctx log
      = (log.filter (fun e => decide (freeaccounts.secs_since_created ctx e ≤ 3600))).length := by
  unfold freeaccounts.accounts_created
  rw [accounts_created_foldl, Nat.zero_add]

/-- The 32-bit age of an entry is in the window exactly when the entry is not dated
after now and is at most 3600 seconds old, for every entry that is not dated
`2 ^ 32 - 3600` seconds or more after now. -/
theorem secs_since_created_le_iff (ctx : Context) (e : freeacctlog)
    (he : e.created_on < 2 ^ 32)
    (hfar : e.created_on < sec_since_epoch ctx + (2 ^ 32 - 3600)) :
    freeaccounts.secs_since_created ctx e ≤ 3600 ↔
      (e.created_on ≤ sec_since_epoch ctx ∧ sec_since_epoch ctx - e.created_on ≤ 3600) := by
  have hlt : sec_since_epoch ctx < 2 ^ 32 := by
    unfold sec_since_epoch to_uint32; exact Nat.mod_lt _ (by norm_num)
  unfold freeaccounts.secs_since_created to_uint32
  generalize sec_since_epoch ctx = now at *
  generalize e.created_on = c at *
  norm_num at *
  omega

theorem accounts_created_eq_window (ctx : Context) (log : List freeacctlog)
    (hlog : ∀ e ∈ log, e.created_on < 2 ^ 32 ∧
      e.created_on < sec_since_epoch ctx + (2 ^ 32 - 3600)) :
    freeaccounts.accounts_created ctx log = currentHourlyCount (sec_since_epoch ctx) log := by
  rw [accounts_created_eq]
  unfold currentHourlyCount
  congr 1
  apply List.filter_congr
  intro e he
  have := secs_since_created_le_iff ctx e (hlog e he).1 (hlog e he).2
  by_cases h : freeaccounts.secs_since_created ctx e ≤ 3600
  · simp only [h, this.1 h, and_self, decide_True]
  · have h' : ¬ (e.created_on ≤ sec_since_epoch ctx ∧
        sec_since_epoch ctx - e.created_on ≤ 3600) := fun hh => h (this.2 hh)
    simp only [h, h', decide_False]

/-- A log in which no entry is dated after now, as the logs that `create` writes with the
block time are, meets the condition of `accounts_created_eq_window`. -/
theorem log_not_after_now (ctx : Context) (log : List freeacctlog)
    (hlog : ∀ e ∈ log, e.created_on ≤ sec_since_epoch ctx) :
    ∀ e ∈ log, e.created_on < 2 ^ 32 ∧
      e.created_on < sec_since_epoch ctx + (2 ^ 32 - 3600) := by
  intro e he
  have hlt : sec_since_epoch ctx < 2 ^ 32 := by
    unfold sec_since_epoch to_uint32; exact Nat.mod_lt _ (by norm_num)
  have := hlog e he
  constructor
  · omega
  · norm_num at *; omega

theorem to_uint64_of_nonneg (m : Int) (h : 0 ≤ m ∧ m ≤ 32767) (k : Nat) :
    k < to_uint64 m ↔ (k : Int) < m := by
  unfold to_uint64
  have h1 : m % 2 ^ 64 = m := Int.emod_eq_of_lt h.1 (by norm_num; omega)
  rw [h1]
  omega

/-- C3: for a caller whitelisted with `max_accounts == 0`, whatever its `total_accounts`,
at every request time, for every configuration whose limit is not negative (as the limit
of every configuration the contract stores) and every log of 32-bit timestamps in which
no entry is dated `2 ^ 32 - 3600` seconds or more after the request time (in particular
every log without an entry dated after the request time, as `create` writes them), the
admission step succeeds, and leaves the storage as it is, if and only if the number of
log entries within the trailing 3600-second window ending at the request time is
strictly less than `max_accounts_per_hour`; otherwise it aborts with the hourly-limit
message. An entry dated after the request time is not counted. -/
theorem admission_hourly_iff_window (ctx : Context) (st : Storage) (config : freeacctcfg)
    (account_creator : name) (w : whitelisted)
    (h : table_find whitelisted.primary_key st.whitelistedtable account_creator.value = some w)
    (hzero : w.max_accounts = 0)
    (hlog : ∀ e ∈ st.freeacctslogtable, e.created_on < 2 ^ 32 ∧
      e.created_on < sec_since_epoch ctx + (2 ^ 32 - 3600))
    (hcfg : 0 ≤ config.max_accounts_per_hour ∧ config.max_accounts_per_hour ≤ 32767) :
    ((∃ s, freeaccounts.admission ctx st config account_creator = .ok s) ↔
      (currentHourlyCount (sec_since_epoch ctx) st.freeacctslogtable : Int)
        < config.max_accounts_per_hour) ∧
    (freeaccounts.admission ctx st config account_creator = .ok st ∨
      freeaccounts.admission ctx st config account_creator = .error (.check_failed
        "You have exceeded the maximum number of accounts per hour")) := by
  rw [admission_hourly ctx st config account_creator w h hzero,
    accounts_created_eq_window ctx _ hlog]
  by_cases hlt : currentHourlyCount (sec_since_epoch ctx) st.freeacctslogtable
      < to_uint64 config.max_accounts_per_hour
  · rw [if_pos hlt]
    exact ⟨⟨fun _ => (to_uint64_of_nonneg _ hcfg _).1 hlt, fun _ => ⟨st, rfl⟩⟩, Or.inl rfl⟩
  · rw [if_neg hlt]
    refine ⟨⟨?_, fun hh => absurd ((to_uint64_of_nonneg _ hcfg _).2 hh) hlt⟩, Or.inr rfl⟩
    rintro ⟨s, hs⟩; cases hs

/-- Witness of C3: alice, whitelisted with `max_accounts == 0` and `total_accounts = 7`,
asks at time 1700000001 with a limit of 2; the log holds one entry of the current hour,
one entry older than an hour and one entry dated after the request time, so one entry is
in the window and alice is let in. -/
theorem admission_hourly_iff_window_witness :
    table_find whitelisted.primary_key window_storage.whitelistedtable alice.value
      = some ⟨alice, 7, 0⟩ ∧
    (⟨alice, 7, 0⟩ : whitelisted).max_accounts = 0 ∧
    (∀ e ∈ window_storage.freeacctslogtable, e.created_on < 2 ^ 32 ∧
      e.created_on < sec_since_epoch (sample_context sample_self 1700000001 100)
        + (2 ^ 32 - 3600)) ∧
    currentHourlyCount (sec_since_epoch (sample_context sample_self 1700000001 100))
      window_storage.freeacctslogtable = 1 ∧
    ((∃ s, freeaccounts.admission (sample_context sample_self 1700000001 100)
        window_storage ⟨sample_self, 2, 9000, 1000⟩ alice = .ok s) ↔
      (currentHourlyCount (sec_since_epoch (sample_context sample_self 1700000001 100))
        window_storage.freeacctslogtable : Int) < 2) ∧
    freeaccounts.admission (sample_context sample_self 1700000001 100)
        window_storage ⟨sample_self, 2, 9000, 1000⟩ alice = .ok window_storage ∧
    freeaccounts.admission (sample_context sample_self 1700000001 100)
        window_storage ⟨sample_self, 1, 9000, 1000⟩ alice
      = .error (.check_failed "You have exceeded the maximum number of accounts per hour") :=
  ⟨rfl, rfl, by decide, rfl,
    (admission_hourly_iff_window (sample_context sample_self 1700000001 100)
      window_storage ⟨sample_self, 2, 9000, 1000⟩ alice ⟨alice, 7, 0⟩ rfl rfl (by decide)
      (by decide)).1,
    rfl, rfl⟩

/-! ## Per-account threshold -/

/-- Below the top of the `uint32_t` range a successful `create` by a caller with a
positive `max_accounts` adds exactly one to `total_accounts` and keeps `max_accounts`. -/
theorem create_quota_increments (ctx : Context) (st : Storage) (account_creator account_name : name)
    (owner_pubkey active_pubkey : public_key) ( key_prefix : String) (w : whitelisted)
    (st' : Storage) (acts : List action)
    (hw : table_find whitelisted.primary_key st.whitelistedtable account_creator.value = some w)
    (hpos : w.max_accounts > 0) (hlt : w.total_accounts + 1 < 2 ^ 32)
    (h : dispatch ctx st
      (.create account_creator account_name owner_pubkey active_pubkey key_prefix)
      = .ok (st', acts)) :
    table_find whitelisted.primary_key st'.whitelistedtable account_creator.value
      = some { w with total_accounts := w.total_accounts + 1 } ∧
    w.total_accounts + 1 ≤ w.max_accounts := by
  obtain ⟨_, st1, hadm, hp⟩ := create_ok_inv _ _ _ _ _ _ _ _ h
  have h1 := (provision_ok_inv _ _ _ _ _ _ _ _ hp).1
  have hw' : table_find whitelisted.primary_key
      (freeaccounts.freeaccounts ctx st).whitelistedtable account_creator.value = some w := by
    rw [ctor_whitelistedtable]; exact hw
  have h32 : to_uint32 (w.total_accounts + 1) = w.total_accounts + 1 := Nat.mod_eq_of_lt hlt
  rw [admission_quota _ _ _ _ w hw' hpos, h32] at hadm
  split at hadm
  · rename_i hle
    cases hadm
    have hk : ∀ r : whitelisted, whitelisted.primary_key
        { r with total_accounts := w.total_accounts + 1 } = whitelisted.primary_key r :=
      fun _ => rfl
    have h3 : st'.whitelistedtable = table_modify whitelisted.primary_key
        (fun a => { a with total_accounts := w.total_accounts + 1 }) account_creator.value
        (freeaccounts.freeaccounts ctx st).whitelistedtable := by
      have : st' = ((st', acts) : Storage × List action).1 := rfl
      rw [this, h1]
    rw [h3, table_find_modify whitelisted.primary_key _ _ hk, hw']
    exact ⟨rfl, hle⟩
  · cases hadm

/-- Below the top of the `uint32_t` range a `create` by a caller whose `total_accounts`
has reached a positive `max_accounts` aborts with the per-account message. -/
theorem create_quota_exceeded (ctx : Context) (st : Storage) (account_creator account_name : name)
    (owner_pubkey active_pubkey : public_key) ( key_prefix : String) (w : whitelisted)
    (hauth : ctx.has_auth account_creator = true)
    (hw : table_find whitelisted.primary_key st.whitelistedtable account_creator.value = some w)
    (hpos : w.max_accounts > 0) (hfull : w.total_accounts = w.max_accounts)
    (hlt : w.max_accounts + 1 < 2 ^ 32) :
    dispatch ctx st (.create account_creator account_name owner_pubkey active_pubkey key_prefix)
      = .error (.check_failed
        "You have exceeded the maximum number of accounts allowed for your account") := by
  have hw' : table_find whitelisted.primary_key
      (freeaccounts.freeaccounts ctx st).whitelistedtable account_creator.value = some w := by
    rw [ctor_whitelistedtable]; exact hw
  have h32 : to_uint32 (w.total_accounts + 1) = w.max_accounts + 1 := by
    rw [hfull]; exact Nat.mod_eq_of_lt hlt
  rw [create_eq _ _ _ _ _ _ _ hauth, admission_quota _ _ _ _ w hw' hpos, h32,
    if_neg (by omega)]
  rfl

/-- The scenario of the spec: alice is whitelisted with `total_accounts = 0` and
`max_accounts = 1`; her first `create` succeeds and sets `total_accounts` to 1, her
second `create` aborts with the per-account message. -/
theorem create_quota_scenario :
    (∃ acts, dispatch (sample_context sample_self 1700000000 100) (whitelisted_once alice 0 1)
        (.create alice bob ⟨1⟩ ⟨2⟩ "EOS")
      = .ok (commit (sample_context sample_self 1700000000 100) (whitelisted_once alice 0 1)
          (.create alice bob ⟨1⟩ ⟨2⟩ "EOS"), acts)) ∧
    (commit (sample_context sample_self 1700000000 100) (whitelisted_once alice 0 1)
        (.create alice bob ⟨1⟩ ⟨2⟩ "EOS")).whitelistedtable = [⟨alice, 1, 1⟩] ∧
    dispatch (sample_context sample_self 1700000060 100)
        (commit (sample_context sample_self 1700000000 100) (whitelisted_once alice 0 1)
          (.create alice bob ⟨1⟩ ⟨2⟩ "EOS"))
        (.create alice carol ⟨1⟩ ⟨2⟩ "EOS")
      = .error (.check_failed
        "You have exceeded the maximum number of accounts allowed for your account") :=
  ⟨⟨_, rfl⟩, rfl, rfl⟩

/-- C1 (the code at the failing input): after `addwhitelist(alice, 4294967295, 1)` the
entry has `max_accounts > 0`; one `create` by alice succeeds and leaves the entry with
`total_accounts = 0`, which is not the initial `total_accounts` plus one. -/
theorem create_wraps_total_accounts :
    table_find whitelisted.primary_key (whitelisted_once alice 4294967295 1).whitelistedtable
        alice.value = some ⟨alice, 4294967295, 1⟩ ∧
    ∃ st acts,
      dispatch (sample_context sample_self 1700000000 100) (whitelisted_once alice 4294967295 1)
        (.create alice bob ⟨1⟩ ⟨2⟩ "EOS") = .ok (st, acts) ∧
      table_find whitelisted.primary_key st.whitelistedtable alice.value = some ⟨alice, 0, 1⟩ :=
  ⟨rfl, _, _, rfl, rfl⟩

/-- C2 (the code at the failing input): after `addwhitelist(alice, 4294967295, 4294967295)`
the entry has `total_accounts == max_accounts > 0`; a `create` by alice does not fail: it
returns, sends its three inline actions and appends a log entry. -/
theorem create_at_full_quota_succeeds :
    table_find whitelisted.primary_key
        (whitelisted_once alice 4294967295 4294967295).whitelistedtable alice.value
      = some ⟨alice, 4294967295, 4294967295⟩ ∧
    ∃ st acts,
      dispatch (sample_context sample_self 1700000000 100)
        (whitelisted_once alice 4294967295 4294967295)
        (.create alice bob ⟨1⟩ ⟨2⟩ "EOS") = .ok (st, acts) ∧
      acts.length = 3 ∧ st.freeacctslogtable = [⟨bob, 1700000000⟩] ∧
      st.whitelistedtable = [⟨alice, 0, 4294967295⟩] :=
  ⟨rfl, _, _, rfl, rfl, rfl, rfl⟩

/-! ## The RAM price -/

theorem add_ram_fee_eq (b : Int) (h0 : 0 ≤ b) (hb : b ≤ 46116860184273878) :
    freeaccounts.add_ram_fee b = b * 200 / 199 + 1 := by
  unfold freeaccounts.add_ram_fee
  rw [to_int64_of_range _ (by omega), Int.tdiv_eq_ediv (by omega) (by norm_num)]
  omega

theorem ceil_price_of_not_dvd (b : Int) (h : ¬ (199 : Int) ∣ b) :
    ceil_price b = b * 200 / 199 + 1 := by
  unfold ceil_price
  rw [Int.ceil_eq_iff]
  have hq : ((b * 200 / 199 : Int) : ℚ) * 199 + ((b * 200 % 199 : Int) : ℚ) = (b : ℚ) * 200 := by
    have := Int.ediv_add_emod (b * 200) 199
    have h2 : ((199 * (b * 200 / 199) + b * 200 % 199 : Int) : ℚ) = ((b * 200 : Int) : ℚ) := by
      rw [this]
    push_cast at h2
    linarith
  have hr0 : (0 : Int) < b * 200 % 199 := by omega
  have hr1 : b * 200 % 199 < (199 : Int) := by omega
  have hr0' : (0 : ℚ) < ((b * 200 % 199 : Int) : ℚ) := by exact_mod_cast hr0
  have hr1' : ((b * 200 % 199 : Int) : ℚ) < 199 := by exact_mod_cast hr1
  constructor
  · rw [lt_div_iff₀ (by norm_num)]
    push_cast
    linarith
  · rw [div_le_iff₀ (by norm_num)]
    push_cast
    linarith

theorem ceil_price_of_dvd (b : Int) (h : (199 : Int) ∣ b) :
    ceil_price b = b * 200 / 199 := by
  unfold ceil_price
  obtain ⟨k, rfl⟩ := h
  have h1 : 199 * k * 200 / 199 = k * 200 := by omega
  rw [h1, Int.ceil_eq_iff]
  push_cast
  constructor
  · rw [lt_div_iff₀ (by norm_num)]; linarith
  · rw [div_le_iff₀ (by norm_num)]; linarith

/-- A `create` that succeeds found a `RAMCORE` row in the RAM market. -/
theorem create_ok_market_row (ctx : Context) (st : Storage) (account_creator account_name : name)
    (owner_pubkey active_pubkey : public_key) ( key_prefix : String) (r : Storage × List action)
    (h : dispatch ctx st
      (.create account_creator account_name owner_pubkey active_pubkey key_prefix) = .ok r) :
    ∃ row, ram_market_row ctx = some row ∧
      ram_base_cost ctx = some (row.convert ⟨4096, symbol.RAM⟩ symbol.TLOS).amount := by
  obtain ⟨_, st1, _, hp⟩ := create_ok_inv _ _ _ _ _ _ _ _ h
  obtain ⟨row, hrow, _⟩ := (provision_ok_inv _ _ _ _ _ _ _ _ hp).2
  exact ⟨row, hrow, by unfold ram_base_cost; rw [hrow]; rfl⟩

/-- C9 (amended): when the market conversion yields a base cost `b` with
`0 ≤ b ≤ 46116860184273878` (so that `b * 200 + 199` fits an `int64_t`), every successful
`create` sends `buyram` as its second action, paid by the contract for `account_name`,
with the amount `floor(b * 200 / 199) + 1`: this is `ceil(b * 200 / 199)` when `b` is not
a multiple of 199, and `ceil(b * 200 / 199) + 1` when it is. -/
theorem create_buyram_price (ctx : Context) (st : Storage) (account_creator account_name : name)
    (owner_pubkey active_pubkey : public_key) ( key_prefix : String)
    (st' : Storage) (acts : List action)
    (h : dispatch ctx st
      (.create account_creator account_name owner_pubkey active_pubkey key_prefix)
      = .ok (st', acts))
    (b : Int) (hbase : ram_base_cost ctx = some b)
    (h0 : 0 ≤ b) (hb : b ≤ 46116860184273878) :
    (∃ a1 a3 quant, acts = [a1,
        ⟨⟨ctx.self, name_of "active"⟩, name_of "eosio", name_of "buyram",
          .buyram ctx.self account_name quant⟩, a3] ∧
      quant.amount = b * 200 / 199 + 1 ∧
      quant.amount = freeaccounts.add_ram_fee b) ∧
    (¬ (199 : Int) ∣ b → freeaccounts.add_ram_fee b = ceil_price b) ∧
    ((199 : Int) ∣ b → freeaccounts.add_ram_fee b = ceil_price b + 1) := by
  obtain ⟨_, st1, _, hp⟩ := create_ok_inv _ _ _ _ _ _ _ _ h
  obtain ⟨row, hrow, h2⟩ := (provision_ok_inv _ _ _ _ _ _ _ _ hp).2
  have hrb : (row.convert ⟨4096, symbol.RAM⟩ symbol.TLOS).amount = b := by
    unfold ram_base_cost at hbase
    rw [hrow] at hbase
    exact Option.some.inj hbase
  rw [hrb] at h2
  refine ⟨⟨_, _, _, h2, add_ram_fee_eq _ h0 hb, rfl⟩, ?_, ?_⟩
  · intro hnd; rw [add_ram_fee_eq _ h0 hb, ceil_price_of_not_dvd _ hnd]
  · intro hd; rw [add_ram_fee_eq _ h0 hb, ceil_price_of_dvd _ hd]

/-- Witness of C9 (amended): alice creates bob with a market base cost of 100; the
price is 101. -/
theorem create_buyram_price_witness :
    ram_base_cost (sample_context sample_self 1700000000 100) = some 100 ∧
    (0 : Int) ≤ 100 ∧ (100 : Int) ≤ 46116860184273878 ∧
    (∃ st' acts, dispatch (sample_context sample_self 1700000000 100)
      (whitelisted_once alice 0 5) (.create alice bob ⟨1⟩ ⟨2⟩ "EOS") = .ok (st', acts)) ∧
    freeaccounts.add_ram_fee 100 = ceil_price 100 ∧
    freeaccounts.add_ram_fee 100 = 101 :=
  ⟨rfl, by decide, by decide, ⟨_, _, rfl⟩,
    (create_buyram_price (sample_context sample_self 1700000000 100)
      (whitelisted_once alice 0 5) alice bob ⟨1⟩ ⟨2⟩ "EOS" _ _ rfl 100 rfl (by decide)
      (by decide)).2.1 (by decide),
    by decide⟩

/-- C9 (counterexample): with a market base cost of 199, non-negative, the `create` of
bob by alice succeeds and passes the price 201 to `buyram`, while
`ceil(199 * 200 / 199)` is 200. -/
theorem create_buyram_price_not_ceil :
    ram_base_cost (sample_context sample_self 1700000000 199) = some 199 ∧
    (dispatch (sample_context sample_self 1700000000 199) (whitelisted_once alice 0 5)
        (.create alice bob ⟨1⟩ ⟨2⟩ "EOS")).toOption.map (fun r => r.2.get? 1)
      = some (some ⟨⟨sample_self, name_of "active"⟩, name_of "eosio", name_of "buyram",
          .buyram sample_self bob ⟨201, symbol.TLOS⟩⟩) ∧
    ceil_price 199 = 200 ∧
    freeaccounts.add_ram_fee 199 ≠ ceil_price 199 := by
  have hc : ceil_price 199 = 200 := by
    rw [ceil_price_of_dvd 199 (dvd_refl _)]; decide
  refine ⟨rfl, rfl, hc, ?_⟩
  rw [hc]; decide

/-! ## The whitelist -/

/-- The abort of `addwhitelist` on an account that `whitelistedtable` holds and the old
`whitelisttable` does not: the check passes, the host refuses the row. -/
theorem addwhitelist_whitelisted (ctx : Context) (st : Storage) (account_name : name)
    (total_accounts max_accounts : Nat) (w : whitelisted)
    (hauth : ctx.has_auth ctx.self = true)
    (hold : table_find name.value st.whitelisttable account_name.value = none)
    (hnew : table_find whitelisted.primary_key st.whitelistedtable account_name.value = some w) :
    dispatch ctx st (.addwhitelist account_name total_accounts max_accounts)
      = .error .duplicate_key := by
  rw [addwhitelist_eq _ _ _ _ _ hauth, hold, hnew]
  rfl

/-- C10 (the code at the failing input): on a freshly deployed contract
`addwhitelist(alice, 0, 5)` succeeds and puts alice in `whitelistedtable`; the same call
repeated at once passes the "Account already exists in the whitelist" check, which reads
the old `whitelisttable`, and is aborted by the host for the duplicate key instead. -/
theorem addwhitelist_twice_duplicate_key :
    dispatch (sample_context sample_self 1700000000 100) Storage.empty (.addwhitelist alice 0 5)
      = .ok (whitelisted_once alice 0 5, []) ∧
    table_find whitelisted.primary_key (whitelisted_once alice 0 5).whitelistedtable alice.value
      = some ⟨alice, 0, 5⟩ ∧
    table_find name.value (whitelisted_once alice 0 5).whitelisttable alice.value = none ∧
    dispatch (sample_context sample_self 1700000000 100) (whitelisted_once alice 0 5)
      (.addwhitelist alice 0 5) = .error .duplicate_key ∧
    dispatch (sample_context sample_self 1700000000 100) (whitelisted_once alice 0 5)
      (.addwhitelist alice 0 5)
      ≠ .error (.check_failed "Account already exists in the whitelist") := by
  refine ⟨rfl, rfl, rfl, rfl, ?_⟩
  intro h
  have h2 : dispatch (sample_context sample_self 1700000000 100) (whitelisted_once alice 0 5)
      (.addwhitelist alice 0 5) = .error .duplicate_key := rfl
  rw [h2] at h
  cases h

/-! ## What each action leaves behind -/

/-- What a successful `addwhitelist` did. -/
theorem addwhitelist_ok_inv (ctx : Context) (st : Storage) (account_name : name)
    (total_accounts max_accounts : Nat) (r : Storage × List action)
    (h : dispatch ctx st (.addwhitelist account_name total_accounts max_accounts) = .ok r) :
    ctx.has_auth ctx.self = true ∧
    table_find name.value st.whitelisttable account_name.value = none ∧
    table_find whitelisted.primary_key st.whitelistedtable account_name.value = none ∧
    r = ({ freeaccounts.freeaccounts ctx st with whitelistedtable :=
            (st.whitelistedtable
              ++ [⟨account_name, to_uint32 total_accounts, to_uint32 max_accounts⟩]) }, []) := by
  cases hauth : ctx.has_auth ctx.self with
  | false => rw [addwhitelist_unauthorised _ _ _ _ _ hauth] at h; cases h
  | true =>
    rw [addwhitelist_eq _ _ _ _ _ hauth] at h
    split at h
    · rename_i h1
      split at h
      · cases h
      · rename_i h2
        cases h
        refine ⟨rfl, ?_, ?_, rfl⟩
        · exact Option.isNone_iff_eq_none.1 h1
        · cases hf : table_find whitelisted.primary_key st.whitelistedtable account_name.value
          · rfl
          · rw [hf] at h2; exact absurd rfl h2
    · cases h

/-- What a successful `removewlist` did. -/
theorem removewlist_ok_inv (ctx : Context) (st : Storage) (account_name : name)
    (r : Storage × List action) (h : dispatch ctx st (.removewlist account_name) = .ok r) :
    ctx.has_auth ctx.self = true ∧
    (table_find whitelisted.primary_key st.whitelistedtable account_name.value).isSome = true ∧
    r = ({ freeaccounts.freeaccounts ctx st with whitelistedtable :=
          (table_erase whitelisted.primary_key st.whitelistedtable account_name.value) }, []) := by
  cases hauth : ctx.has_auth ctx.self with
  | false => rw [removewlist_unauthorised _ _ _ hauth] at h; cases h
  | true =>
    rw [removewlist_eq _ _ _ hauth] at h
    split at h
    · rename_i h1; cases h; exact ⟨rfl, h1, rfl⟩
    · cases h

/-- What a successful `erasewlist` did. -/
theorem erasewlist_ok_inv (ctx : Context) (st : Storage) (account : name)
    (r : Storage × List action) (h : dispatch ctx st (.erasewlist account) = .ok r) :
    r = ({ freeaccounts.freeaccounts ctx st with whitelisttable :=
          (table_erase name.value st.whitelisttable account.value) }, []) := by
  rw [erasewlist_eq] at h
  split at h
  · cases h; rfl
  · cases h

/-- What a successful `configure` did. -/
theorem configure_ok_inv (ctx : Context) (st : Storage) (m c n : Int)
    (r : Storage × List action) (h : dispatch ctx st (.configure m c n) = .ok r) :
    r = ({ freeaccounts.freeaccounts ctx st with
            configuration := some { constructed_config ctx st with
              max_accounts_per_hour := cfg_hour_field m
              stake_cpu_tlos_amount := cfg_stake_field c
              stake_net_tlos_amount := cfg_stake_field n } }, []) := by
  cases hauth : ctx.has_auth ctx.self with
  | false => rw [configure_unauthorised _ _ _ _ _ hauth] at h; cases h
  | true =>
    rw [configure_eq _ _ _ _ _ hauth] at h
    split at h
    · split at h
      · split at h
        · cases h; rfl
        · cases h
      · cases h
    · cases h

/-- A successful `create` appends one entry to the log and leaves the configuration and
the old whitelist of the constructed contract as they are. -/
theorem create_ok_frame (ctx : Context) (st : Storage) (account_creator account_name : name)
    (owner_pubkey active_pubkey : public_key) ( key_prefix : String) (r : Storage × List action)
    (h : dispatch ctx st
      (.create account_creator account_name owner_pubkey active_pubkey key_prefix) = .ok r) :
    r.1.freeacctslogtable = st.freeacctslogtable ++ [⟨account_name, sec_since_epoch ctx⟩] ∧
    r.1.configuration = some (constructed_config ctx st) ∧
    r.1.whitelisttable = st.whitelisttable ∧
    ∃ st1, freeaccounts.admission ctx (freeaccounts.freeaccounts ctx st)
        (constructed_config ctx st) account_creator = .ok st1 ∧
      r.1.whitelistedtable = st1.whitelistedtable := by
  obtain ⟨_, st1, hadm, hp⟩ := create_ok_inv _ _ _ _ _ _ _ _ h
  have h1 := (provision_ok_inv _ _ _ _ _ _ _ _ hp).1
  obtain ⟨hc, hl, hw⟩ := admission_ok_frame _ _ _ _ _ hadm
  rw [h1]
  refine ⟨?_, ?_, ?_, st1, hadm, rfl⟩
  · show st1.freeacctslogtable ++ _ = _
    rw [hl, ctor_freeacctslogtable]
  · show st1.configuration = _
    rw [hc, ctor_configuration]
  · show st1.whitelisttable = _
    rw [hw, ctor_whitelisttable]

/-! ## The audit log -/

/-- C15: the log is append-only. A `create` that succeeds leaves the log with exactly one
more entry, at the end, holding the requested `account_name` and the current time in
seconds; a `create` that aborts, and every `addwhitelist`, `removewlist`, `erasewlist`
and `configure`, whether it succeeds or aborts, leaves the log as it was. -/
theorem log_append_only (ctx : Context) (st : Storage) :
    (∀ (account_creator account_name : name) (owner_pubkey active_pubkey : public_key)
        ( key_prefix : String),
      (∀ r, dispatch ctx st
          (.create account_creator account_name owner_pubkey active_pubkey key_prefix) = .ok r →
        (commit ctx st (.create account_creator account_name owner_pubkey active_pubkey
            key_prefix)).freeacctslogtable
          = st.freeacctslogtable ++ [⟨account_name, sec_since_epoch ctx⟩]) ∧
      (∀ e, dispatch ctx st
          (.create account_creator account_name owner_pubkey active_pubkey key_prefix)
            = .error e →
        (commit ctx st (.create account_creator account_name owner_pubkey active_pubkey
            key_prefix)).freeacctslogtable = st.freeacctslogtable)) ∧
    (∀ account_name total_accounts max_accounts,
      (commit ctx st (.addwhitelist account_name total_accounts max_accounts)).freeacctslogtable
        = st.freeacctslogtable) ∧
    (∀ account_name,
      (commit ctx st (.removewlist account_name)).freeacctslogtable = st.freeacctslogtable) ∧
    (∀ account,
      (commit ctx st (.erasewlist account)).freeacctslogtable = st.freeacctslogtable) ∧
    (∀ m c n,
      (commit ctx st (.configure m c n)).freeacctslogtable = st.freeacctslogtable) := by
  refine ⟨?_, ?_, ?_, ?_, ?_⟩
  · intro account_creator account_name owner_pubkey active_pubkey key_prefix
    constructor
    · intro r hr
      have := (create_ok_frame _ _ _ _ _ _ _ r hr).1
      simp only [commit, hr]
      exact this
    · intro e he
      simp only [commit, he]
  · intro account_name total_accounts max_accounts
    unfold commit
    cases hd : dispatch ctx st (.addwhitelist account_name total_accounts max_accounts) with
    | error e => rfl
    | ok r =>
      rw [(addwhitelist_ok_inv _ _ _ _ _ r hd).2.2.2]
      exact ctor_freeacctslogtable ctx st
  · intro account_name
    unfold commit
    cases hd : dispatch ctx st (.removewlist account_name) with
    | error e => rfl
    | ok r =>
      rw [(removewlist_ok_inv _ _ _ r hd).2.2]
      exact ctor_freeacctslogtable ctx st
  · intro account
    unfold commit
    cases hd : dispatch ctx st (.erasewlist account) with
    | error e => rfl
    | ok r =>
      rw [erasewlist_ok_inv _ _ _ r hd]
      exact ctor_freeacctslogtable ctx st
  · intro m c n
    unfold commit
    cases hd : dispatch ctx st (.configure m c n) with
    | error e => rfl
    | ok r =>
      rw [configure_ok_inv _ _ _ _ _ r hd]
      exact ctor_freeacctslogtable ctx st

/-! ## The order of the log -/

/-- C16: when two logs are permutations of each other, the scan of `create` counts the
same number of entries in both, at every request time; hence, for a caller whitelisted
with `max_accounts == 0` and every configured limit, the admission step gives the same
outcome (success without change, or the same abort) on two storages that differ only in
the order of the log. -/
theorem accounts_created_perm (ctx : Context) (st : Storage) (log : List freeacctlog)
    (hperm : st.freeacctslogtable.Perm log) :
    freeaccounts.accounts_created ctx st.freeacctslogtable
      = freeaccounts.accounts_created ctx log ∧
    ∀ (config : freeacctcfg) (account_creator : name) (w : whitelisted),
      table_find whitelisted.primary_key st.whitelistedtable account_creator.value = some w →
      w.max_accounts = 0 →
      (freeaccounts.admission ctx st config account_creator = .ok st ↔
        freeaccounts.admission ctx { st with freeacctslogtable := log } config account_creator
          = .ok { st with freeacctslogtable := log }) ∧
      (∀ e, freeaccounts.admission ctx st config account_creator = .error e ↔
        freeaccounts.admission ctx { st with freeacctslogtable := log } config account_creator
          = .error e) := by
  have hcount : freeaccounts.accounts_created ctx st.freeacctslogtable
      = freeaccounts.accounts_created ctx log := by
    rw [accounts_created_eq, accounts_created_eq]
    exact (hperm.filter _).length_eq
  refine ⟨hcount, ?_⟩
  intro config account_creator w hw hzero
  have hw' : table_find whitelisted.primary_key
      ({ st with freeacctslogtable := log } : Storage).whitelistedtable account_creator.value
      = some w := hw
  rw [admission_hourly ctx st config account_creator w hw hzero,
    admission_hourly ctx _ config account_creator w hw' hzero]
  show (_ ↔ (if freeaccounts.accounts_created ctx log < _ then _ else _) = _) ∧
    ∀ e, (_ ↔ (if freeaccounts.accounts_created ctx log < _ then _ else _) = _)
  rw [hcount]
  by_cases hlt : freeaccounts.accounts_created ctx log < to_uint64 config.max_accounts_per_hour
  · rw [if_pos hlt, if_pos hlt]
    refine ⟨⟨fun _ => rfl, fun _ => rfl⟩, fun e => ⟨fun h => ?_, fun h => ?_⟩⟩ <;> cases h
  · rw [if_neg hlt, if_neg hlt]
    refine ⟨⟨fun h => ?_, fun h => ?_⟩, fun e => Iff.rfl⟩ <;> cases h

/-- Witness of C16: a log of three entries and the same entries in another order, for
alice whitelisted with `max_accounts == 0`. -/
theorem accounts_created_perm_witness :
    log_in_order.Perm log_shuffled ∧
    freeaccounts.accounts_created (sample_context sample_self 1700000001 100) log_in_order
      = freeaccounts.accounts_created (sample_context sample_self 1700000001 100) log_shuffled ∧
    freeaccounts.accounts_created (sample_context sample_self 1700000001 100) log_shuffled = 2 :=
  ⟨by decide,
    (accounts_created_perm (sample_context sample_self 1700000001 100)
      ⟨none, log_in_order, [], [⟨alice, 0, 0⟩]⟩ log_shuffled (by decide)).1,
    rfl⟩

/-! ## The inline actions -/

/-- C18: a `create` that succeeds sends exactly three inline actions, in this order:
`newaccount` for `account_name`, whose owner and active authorities each have threshold
1, the single supplied key with weight 1, no accounts and no waits; `buyram`, authorised
and paid by the contract, for `account_name`, at the base cost with the fee added;
`delegatebw`, authorised and paid by the contract, for `account_name`, with the
configured net and cpu amounts in TLOS and `transfer = false`. -/
theorem create_sends_three_actions (ctx : Context) (st : Storage)
    (account_creator account_name : name) (owner_pubkey active_pubkey : public_key)
    ( key_prefix : String) (st' : Storage) (acts : List action)
    (h : dispatch ctx st
      (.create account_creator account_name owner_pubkey active_pubkey key_prefix)
      = .ok (st', acts)) :
    acts.length = 3 ∧
    ∃ newaccount_creator row, ram_market_row ctx = some row ∧
      acts = [⟨⟨newaccount_creator, name_of "active"⟩, name_of "eosio", name_of "newaccount",
                .newaccount ⟨newaccount_creator, account_name,
                  ⟨1, [⟨owner_pubkey, 1⟩], [], []⟩, ⟨1, [⟨active_pubkey, 1⟩], [], []⟩⟩⟩,
              ⟨⟨ctx.self, name_of "active"⟩, name_of "eosio", name_of "buyram",
                .buyram ctx.self account_name
                  ⟨freeaccounts.add_ram_fee
                      (row.convert ⟨4096, symbol.RAM⟩ symbol.TLOS).amount,
                    (row.convert ⟨4096, symbol.RAM⟩ symbol.TLOS).sym⟩⟩,
              ⟨⟨ctx.self, name_of "active"⟩, name_of "eosio", name_of "delegatebw",
                .delegatebw ctx.self account_name
                  ⟨(freeaccounts.getconfig
                      (freeaccounts.freeaccounts ctx st)).2.stake_net_tlos_amount, symbol.TLOS⟩
                  ⟨(freeaccounts.getconfig
                      (freeaccounts.freeaccounts ctx st)).2.stake_cpu_tlos_amount, symbol.TLOS⟩
                  false⟩] := by
  obtain ⟨_, st1, _, hp⟩ := create_ok_inv _ _ _ _ _ _ _ _ h
  obtain ⟨row, hrow, h2⟩ := (provision_ok_inv _ _ _ _ _ _ _ _ hp).2
  rw [getconfig_ctor]
  have h3 : acts = _ := h2
  rw [h3]
  exact ⟨rfl, _, row, hrow, rfl⟩

/-- Witness of C18: alice creates bob on a contract that whitelisted her, with the
initial configuration and a base cost of 100. -/
theorem create_sends_three_actions_witness :
    dispatch (sample_context sample_self 1700000000 100) (whitelisted_once alice 0 5)
        (.create alice bob ⟨1⟩ ⟨2⟩ "EOS")
      = .ok (commit (sample_context sample_self 1700000000 100) (whitelisted_once alice 0 5)
          (.create alice bob ⟨1⟩ ⟨2⟩ "EOS"),
        [⟨⟨sample_self, name_of "active"⟩, name_of "eosio", name_of "newaccount",
            .newaccount ⟨sample_self, bob,
              ⟨1, [⟨⟨1⟩, 1⟩], [], []⟩, ⟨1, [⟨⟨2⟩, 1⟩], [], []⟩⟩⟩,
          ⟨⟨sample_self, name_of "active"⟩, name_of "eosio", name_of "buyram",
            .buyram sample_self bob ⟨101, symbol.TLOS⟩⟩,
          ⟨⟨sample_self, name_of "active"⟩, name_of "eosio", name_of "delegatebw",
            .delegatebw sample_self bob ⟨1000, symbol.TLOS⟩ ⟨9000, symbol.TLOS⟩ false⟩]) ∧
    (sent (sample_context sample_self 1700000000 100) (whitelisted_once alice 0 5)
        (.create alice bob ⟨1⟩ ⟨2⟩ "EOS")).length = 3 :=
  ⟨rfl, (create_sends_three_actions (sample_context sample_self 1700000000 100)
    (whitelisted_once alice 0 5) alice bob ⟨1⟩ ⟨2⟩ "EOS" _ _ rfl).1⟩

/-- C19: in a `create` that succeeds, the creator named in the `newaccount` action and the
actor that authorises it are the same account: the contract's own account when the
suffix of the requested name is the name itself, the caller `account_creator`
otherwise. -/
theorem create_newaccount_creator (ctx : Context) (st : Storage)
    (account_creator account_name : name) (owner_pubkey active_pubkey : public_key)
    ( key_prefix : String) (st' : Storage) (acts : List action)
    (h : dispatch ctx st
      (.create account_creator account_name owner_pubkey active_pubkey key_prefix)
      = .ok (st', acts)) :
    ∃ newaccount_creator owner active rest,
      acts = ⟨⟨newaccount_creator, name_of "active"⟩, name_of "eosio", name_of "newaccount",
        .newaccount ⟨newaccount_creator, account_name, owner, active⟩⟩ :: rest ∧
      (account_name.suffix = account_name → newaccount_creator = ctx.self) ∧
      (account_name.suffix ≠ account_name → newaccount_creator = account_creator) := by
  obtain ⟨_, st1, _, hp⟩ := create_ok_inv _ _ _ _ _ _ _ _ h
  obtain ⟨row, _, h2⟩ := (provision_ok_inv _ _ _ _ _ _ _ _ hp).2
  have h2 : acts = _ := h2
  refine ⟨if account_name.suffix = account_name then ctx.self else account_creator,
    _, _, _, h2, ?_, ?_⟩
  · intro hs; rw [if_pos hs]
  · intro hs; rw [if_neg hs]

/-- Witness of C19: alice creates `bob`, whose suffix is `bob` itself, and `bob.tf`, whose
suffix is `tf`: the first `newaccount` is sent by the contract, the second by alice. -/
theorem create_newaccount_creator_witness :
    bob.suffix = bob ∧ bob_tf.suffix = tf ∧
    (sent (caller_context sample_self alice 1700000000 100) (whitelisted_once alice 0 5)
        (.create alice bob ⟨1⟩ ⟨2⟩ "EOS")).head?.map (fun a => a.authorization.actor)
      = some sample_self ∧
    (sent (caller_context sample_self alice 1700000000 100) (whitelisted_once alice 0 5)
        (.create alice bob_tf ⟨1⟩ ⟨2⟩ "EOS")).head?.map (fun a => a.authorization.actor)
      = some alice ∧
    ∃ newaccount_creator owner active rest,
      sent (caller_context sample_self alice 1700000000 100) (whitelisted_once alice 0 5)
          (.create alice bob_tf ⟨1⟩ ⟨2⟩ "EOS")
        = ⟨⟨newaccount_creator, name_of "active"⟩, name_of "eosio", name_of "newaccount",
          .newaccount ⟨newaccount_creator, bob_tf, owner, active⟩⟩ :: rest ∧
      (bob_tf.suffix = bob_tf → newaccount_creator = sample_self) ∧
      (bob_tf.suffix ≠ bob_tf → newaccount_creator = alice) :=
  ⟨by decide, by decide, rfl, rfl,
    create_newaccount_creator (caller_context sample_self alice 1700000000 100)
      (whitelisted_once alice 0 5) alice bob_tf ⟨1⟩ ⟨2⟩ "EOS"
      (commit (caller_context sample_self alice 1700000000 100) (whitelisted_once alice 0 5)
        (.create alice bob_tf ⟨1⟩ ⟨2⟩ "EOS")) _ rfl⟩

/-! ## Tables with unique keys -/

theorem table_find_eq_none_iff {α κ : Type} [DecidableEq κ] (key : α → κ) (t : List α) (k : κ) :
    table_find key t k = none ↔ k ∉ t.map key := by
  unfold table_find
  rw [List.find?_eq_none]
  simp only [decide_eq_true_eq, List.mem_map, not_exists, not_and]

theorem table_find_some_mem {α κ : Type} [DecidableEq κ] (key : α → κ) (t : List α) (k : κ)
    (w : α) (h : table_find key t k = some w) : w ∈ t ∧ key w = k := by
  unfold table_find at h
  exact ⟨List.mem_of_find?_eq_some h, by simpa using List.find?_some h⟩

theorem table_modify_map_key {α κ : Type} [DecidableEq κ] (key : α → κ) (f : α → α) (k : κ)
    (hf : ∀ r, key (f r) = key r) (t : List α) :
    (table_modify key f k t).map key = t.map key := by
  induction t with
  | nil => rfl
  | cons r t ih =>
    unfold table_modify
    by_cases hr : key r = k
    · rw [if_pos hr, List.map_cons, List.map_cons, hf]
    · rw [if_neg hr, List.map_cons, List.map_cons, ih]

/-- The row that `modify` changes is the row that `find` returned. -/
theorem table_modify_mem {α κ : Type} [DecidableEq κ] (key : α → κ) (f : α → α) (k : κ)
    (t : List α) (w : α) (hw : table_find key t k = some w) :
    ∀ x ∈ table_modify key f k t, x ∈ t ∨ x = f w := by
  induction t with
  | nil => intro x hx; cases hx
  | cons r t ih =>
    intro x hx
    unfold table_modify at hx
    by_cases hr : key r = k
    · rw [if_pos hr] at hx
      have hwr : w = r := by
        simp only [table_find, List.find?, hr, decide_True] at hw
        exact (Option.some.inj hw).symm
      rcases List.mem_cons.1 hx with hx | hx
      · right; rw [hx, hwr]
      · left; exact List.mem_cons_of_mem _ hx
    · rw [if_neg hr] at hx
      have hw' : table_find key t k = some w := by
        simpa only [table_find, List.find?, hr, decide_False] using hw
      rcases List.mem_cons.1 hx with hx | hx
      · left; rw [hx]; exact List.mem_cons_self _ _
      · rcases ih hw' x hx with h1 | h1
        · left; exact List.mem_cons_of_mem _ h1
        · right; exact h1

/-- In a table with unique keys, erasing the row of a key leaves exactly the rows of the
other keys, in their order. -/
theorem table_erase_eq_filter {α κ : Type} [DecidableEq κ] (key : α → κ) (k : κ) (t : List α)
    (hnd : (t.map key).Nodup) :
    table_erase key t k = t.filter (fun r => decide (key r ≠ k)) := by
  unfold table_erase
  induction t with
  | nil => rfl
  | cons r t ih =>
    rw [List.map_cons, List.nodup_cons] at hnd
    by_cases hr : key r = k
    · have hall : ∀ a ∈ t, decide (key a ≠ k) = true := by
        intro a ha
        have : key a ≠ k := by
          intro hak
          exact hnd.1 (by rw [hr, ← hak]; exact List.mem_map_of_mem key ha)
        simpa using this
      rw [List.eraseP_cons_of_pos (by simpa using hr), List.filter_cons_of_neg (by simpa using hr),
        List.filter_eq_self.2 hall]
    · rw [List.eraseP_cons_of_neg (by simpa using hr), List.filter_cons_of_pos (by simpa using hr),
        ih hnd.2]

theorem table_find_filter_ne {α κ : Type} [DecidableEq κ] (key : α → κ) (k : κ) (t : List α) :
    table_find key (t.filter (fun r => decide (key r ≠ k))) k = none := by
  rw [table_find_eq_none_iff]
  intro hmem
  obtain ⟨a, ha, hak⟩ := List.mem_map.1 hmem
  have := (List.mem_filter.1 ha).2
  simp only [ne_eq, decide_not, Bool.not_eq_true', decide_eq_false_iff_not] at this
  exact this hak

/-! ## Invariants of the reachable storages -/

/-- The admission step keeps the keys of `whitelistedtable`, in their order. -/
theorem admission_ok_keys (ctx : Context) (st st1 : Storage) (config : freeacctcfg)
    (account_creator : name) (h : freeaccounts.admission ctx st config account_creator = .ok st1) :
    st1.whitelistedtable.map whitelisted.primary_key
      = st.whitelistedtable.map whitelisted.primary_key := by
  cases hw : table_find whitelisted.primary_key st.whitelistedtable account_creator.value with
  | none => rw [admission_absent _ _ _ _ hw] at h; cases h
  | some w =>
    by_cases hpos : w.max_accounts > 0
    · rw [admission_quota _ _ _ _ w hw hpos] at h
      split at h
      · cases h
        exact table_modify_map_key whitelisted.primary_key
          (fun a => { a with total_accounts := to_uint32 (w.total_accounts + 1) }) _
          (fun _ => rfl) _
      · cases h
    · have hzero : w.max_accounts = 0 := by omega
      rw [admission_hourly _ _ _ _ w hw hzero] at h
      split at h
      · cases h; rfl
      · cases h

/-- A reachable storage without a configuration is the empty storage: every action that
succeeds leaves the configuration the constructor stored. -/
theorem reachable_configuration (self : name) (st : Storage) (h : Reachable self st)
    (hnone : st.configuration = none) : st = Storage.empty := by
  induction h with
  | init => rfl
  | @step st ctx call _ _ ih =>
    unfold commit at hnone ⊢
    cases hd : dispatch ctx st call with
    | error e => rw [hd] at hnone; exact ih hnone
    | ok r =>
      rw [hd] at hnone
      obtain ⟨c, hc, _⟩ := dispatch_ok_publisher ctx st call r hd
      have hnone' : r.1.configuration = none := hnone
      rw [hnone'] at hc
      cases hc

/-- In every reachable storage the rows of `whitelistedtable` have distinct keys. -/
theorem reachable_nodup (self : name) (st : Storage) (h : Reachable self st) :
    (st.whitelistedtable.map whitelisted.primary_key).Nodup := by
  induction h with
  | init => exact List.nodup_nil
  | @step st ctx call _ _ ih =>
    unfold commit
    cases hd : dispatch ctx st call with
    | error e => exact ih
    | ok r =>
      show (r.1.whitelistedtable.map whitelisted.primary_key).Nodup
      cases call with
      | create account_creator account_name owner_pubkey active_pubkey key_prefix =>
        obtain ⟨_, _, _, st1, hadm, hwl⟩ := create_ok_frame _ _ _ _ _ _ _ r hd
        rw [hwl, admission_ok_keys _ _ _ _ _ hadm, ctor_whitelistedtable]
        exact ih
      | addwhitelist account_name total_accounts max_accounts =>
        obtain ⟨_, _, hnew, hr⟩ := addwhitelist_ok_inv _ _ _ _ _ r hd
        rw [hr]
        show ((st.whitelistedtable ++ [_]).map whitelisted.primary_key).Nodup
        rw [List.map_append, List.nodup_append]
        refine ⟨ih, List.nodup_singleton _, ?_⟩
        intro a ha hb
        rw [List.map_singleton, List.mem_singleton] at hb
        have := (table_find_eq_none_iff whitelisted.primary_key _ _).1 hnew
        apply this
        rw [hb] at ha
        exact ha
      | removewlist account_name =>
        rw [(removewlist_ok_inv _ _ _ r hd).2.2]
        show ((table_erase whitelisted.primary_key st.whitelistedtable _).map
          whitelisted.primary_key).Nodup
        exact ih.sublist ((List.eraseP_sublist _).map _)
      | erasewlist account =>
        rw [erasewlist_ok_inv _ _ _ r hd]
        show ((freeaccounts.freeaccounts ctx st).whitelistedtable.map _).Nodup
        rw [ctor_whitelistedtable]; exact ih
      | configure m c n =>
        rw [configure_ok_inv _ _ _ _ _ r hd]
        show ((freeaccounts.freeaccounts ctx st).whitelistedtable.map _).Nodup
        rw [ctor_whitelistedtable]; exact ih

/-! ## Removal from the whitelist -/

/-- C11: in a reachable storage, a `removewlist` authorised by the contract aborts, with
"Account does not exist in the whitelist", exactly when the account has no row in
`whitelistedtable`. When it succeeds it sends nothing, the account has no row any more,
the rows of the other accounts are all there in their order, the configuration, the log
and the old whitelist are as before, and a later `create` that the account authorises
aborts with "Account doesn't have permission to create accounts". -/
theorem removewlist_removes (self : name) (st : Storage) (hreach : Reachable self st)
    (ctx : Context) (hauth : ctx.has_auth ctx.self = true) (account_name : name) :
    (dispatch ctx st (.removewlist account_name)
        = .error (.check_failed "Account does not exist in the whitelist") ↔
      table_find whitelisted.primary_key st.whitelistedtable account_name.value = none) ∧
    ((∃ e, dispatch ctx st (.removewlist account_name) = .error e) ↔
      table_find whitelisted.primary_key st.whitelistedtable account_name.value = none) ∧
    (∀ st' acts, dispatch ctx st (.removewlist account_name) = .ok (st', acts) →
      acts = [] ∧
      table_find whitelisted.primary_key st'.whitelistedtable account_name.value = none ∧
      st'.whitelistedtable = st.whitelistedtable.filter
        (fun r => decide (r.primary_key ≠ account_name.value)) ∧
      st'.configuration = st.configuration ∧
      st'.freeacctslogtable = st.freeacctslogtable ∧
      st'.whitelisttable = st.whitelisttable ∧
      ∀ (ctx' : Context) (new_name : name) (owner_pubkey active_pubkey : public_key)
        ( key_prefix : String), ctx'.has_auth account_name = true →
        dispatch ctx' st' (.create account_name new_name owner_pubkey active_pubkey key_prefix)
          = .error (.check_failed "Account doesn't have permission to create accounts")) := by
  rw [removewlist_eq _ _ _ hauth]
  cases hf : table_find whitelisted.primary_key st.whitelistedtable account_name.value with
  | none =>
    refine ⟨⟨fun _ => rfl, fun _ => rfl⟩, ⟨fun _ => rfl, fun _ => ⟨_, rfl⟩⟩, ?_⟩
    intro st' acts h
    cases h
  | some w =>
    refine ⟨⟨fun h => ?_, fun h => ?_⟩, ⟨fun h => ?_, fun h => ?_⟩, ?_⟩
    · cases h
    · cases h
    · obtain ⟨e, he⟩ := h; cases he
    · cases h
    · intro st' acts h
      have hst : st' = { freeaccounts.freeaccounts ctx st with whitelistedtable :=
          (table_erase whitelisted.primary_key st.whitelistedtable account_name.value) } := by
        cases h; rfl
      have hacts : acts = [] := by cases h; rfl
      have hwl : st'.whitelistedtable = st.whitelistedtable.filter
          (fun r => decide (r.primary_key ≠ account_name.value)) := by
        rw [hst]
        exact table_erase_eq_filter whitelisted.primary_key _ _ (reachable_nodup self st hreach)
      have hgone : table_find whitelisted.primary_key st'.whitelistedtable account_name.value
          = none := by
        rw [hwl]; exact table_find_filter_ne whitelisted.primary_key _ _
      have hcfg : st'.configuration = st.configuration := by
        rw [hst]
        show (freeaccounts.freeaccounts ctx st).configuration = _
        cases hc : st.configuration with
        | none =>
          have := reachable_configuration self st hreach hc
          rw [this] at hf
          cases hf
        | some c => rw [ctor_of_some ctx st c hc, hc]
      refine ⟨hacts, hgone, hwl, hcfg, ?_, ?_, ?_⟩
      · rw [hst]; exact ctor_freeacctslogtable ctx st
      · rw [hst]; exact ctor_whitelisttable ctx st
      · intro ctx' new_name owner_pubkey active_pubkey key_prefix hauth'
        rw [create_eq ctx' st' _ _ _ _ _ hauth', admission_absent]
        · rfl
        · rw [ctor_whitelistedtable]; exact hgone

/-- Witness of C11: on the storage reached by whitelisting alice and carol, the contract
removes alice; carol's row stays, and alice can no longer create accounts. -/
theorem removewlist_removes_witness :
    Reachable sample_self whitelisted_twice ∧
    (sample_context sample_self 1700000100 100).has_auth
      (sample_context sample_self 1700000100 100).self = true ∧
    dispatch (sample_context sample_self 1700000100 100) whitelisted_twice (.removewlist alice)
      = .ok (commit (sample_context sample_self 1700000100 100) whitelisted_twice
          (.removewlist alice), []) ∧
    (commit (sample_context sample_self 1700000100 100) whitelisted_twice
      (.removewlist alice)).whitelistedtable = [⟨carol, 2, 0⟩] ∧
    dispatch (sample_context sample_self 1700000200 100)
      (commit (sample_context sample_self 1700000100 100) whitelisted_twice (.removewlist alice))
      (.create alice bob ⟨1⟩ ⟨2⟩ "EOS")
      = .error (.check_failed "Account doesn't have permission to create accounts") ∧
    (dispatch (sample_context sample_self 1700000100 100) whitelisted_twice (.removewlist bob)
        = .error (.check_failed "Account does not exist in the whitelist") ↔
      table_find whitelisted.primary_key whitelisted_twice.whitelistedtable bob.value = none) :=
  ⟨Reachable.step _ _ (Reachable.step _ _ Reachable.init rfl) rfl, rfl, rfl, rfl,
    ((removewlist_removes sample_self whitelisted_twice
      (Reachable.step _ _ (Reachable.step _ _ Reachable.init rfl) rfl)
      (sample_context sample_self 1700000100 100) rfl alice).2.2 _ _ rfl).2.2.2.2.2.2
      (sample_context sample_self 1700000200 100) bob ⟨1⟩ ⟨2⟩ "EOS" rfl,
    (removewlist_removes sample_self whitelisted_twice
      (Reachable.step _ _ (Reachable.step _ _ Reachable.init rfl) rfl)
      (sample_context sample_self 1700000100 100) rfl bob).1⟩

/-! ## What `create` leaves alone -/

/-- C20: a `create` by a caller whitelisted with `max_accounts == 0`, whether it succeeds
or aborts, leaves the whole `whitelistedtable` as it was, so the caller's
`total_accounts` is not incremented; every `create` leaves the configuration that the
contract reads as it was; and in a reachable storage every `create` leaves the stored
configuration as it was. -/
theorem create_leaves_whitelist_and_configuration (ctx : Context) (st : Storage)
    (account_creator account_name : name) (owner_pubkey active_pubkey : public_key)
    ( key_prefix : String) :
    (∀ w, table_find whitelisted.primary_key st.whitelistedtable account_creator.value = some w →
      w.max_accounts = 0 →
      (commit ctx st (.create account_creator account_name owner_pubkey active_pubkey
        key_prefix)).whitelistedtable = st.whitelistedtable) ∧
    (freeaccounts.getconfig (freeaccounts.freeaccounts ctx
        (commit ctx st (.create account_creator account_name owner_pubkey active_pubkey
          key_prefix)))).2
      = (freeaccounts.getconfig (freeaccounts.freeaccounts ctx st)).2 ∧
    (∀ self, Reachable self st →
      (commit ctx st (.create account_creator account_name owner_pubkey active_pubkey
        key_prefix)).configuration = st.configuration) := by
  unfold commit
  cases hd : dispatch ctx st
      (.create account_creator account_name owner_pubkey active_pubkey key_prefix) with
  | error e => exact ⟨fun _ _ _ => rfl, rfl, fun _ _ => rfl⟩
  | ok r =>
    obtain ⟨_, hcfg, _, st1, hadm, hwl⟩ := create_ok_frame _ _ _ _ _ _ _ r hd
    refine ⟨?_, ?_, ?_⟩
    · intro w hw hzero
      show r.1.whitelistedtable = _
      have hw' : table_find whitelisted.primary_key
          (freeaccounts.freeaccounts ctx st).whitelistedtable account_creator.value = some w := by
        rw [ctor_whitelistedtable]; exact hw
      rw [admission_hourly _ _ _ _ w hw' hzero] at hadm
      split at hadm
      · cases hadm
        rw [hwl, ctor_whitelistedtable]
      · cases hadm
    · show (freeaccounts.getconfig (freeaccounts.freeaccounts ctx r.1)).2 = _
      rw [getconfig_ctor, getconfig_ctor]
      exact constructed_config_of_some ctx r.1 _ hcfg
    · intro self hreach
      show r.1.configuration = _
      rw [hcfg]
      cases hc : st.configuration with
      | none =>
        have hempty := reachable_configuration self st hreach hc
        rw [hempty] at hadm
        cases hadm
      | some c => rw [constructed_config_of_some ctx st c hc]

/-- Witness of C20: carol, whitelisted with `max_accounts == 0` and `total_accounts = 2`,
creates bob; her row and the configuration are as before. -/
theorem create_leaves_whitelist_and_configuration_witness :
    Reachable sample_self whitelisted_twice ∧
    (∃ acts, dispatch (sample_context sample_self 1700000100 100) whitelisted_twice
      (.create carol bob ⟨1⟩ ⟨2⟩ "EOS")
      = .ok (commit (sample_context sample_self 1700000100 100) whitelisted_twice
          (.create carol bob ⟨1⟩ ⟨2⟩ "EOS"), acts)) ∧
    (commit (sample_context sample_self 1700000100 100) whitelisted_twice
      (.create carol bob ⟨1⟩ ⟨2⟩ "EOS")).configuration = whitelisted_twice.configuration ∧
    (commit (sample_context sample_self 1700000100 100) whitelisted_twice
      (.create carol bob ⟨1⟩ ⟨2⟩ "EOS")).whitelistedtable = whitelisted_twice.whitelistedtable ∧
    whitelisted_twice.whitelistedtable = [⟨alice, 0, 5⟩, ⟨carol, 2, 0⟩] :=
  ⟨Reachable.step _ _ (Reachable.step _ _ Reachable.init rfl) rfl, ⟨_, rfl⟩,
    (create_leaves_whitelist_and_configuration
      (sample_context sample_self 1700000100 100) whitelisted_twice carol bob ⟨1⟩ ⟨2⟩
      "EOS").2.2 sample_self (Reachable.step _ _ (Reachable.step _ _ Reachable.init rfl) rfl),
    (create_leaves_whitelist_and_configuration
      (sample_context sample_self 1700000100 100) whitelisted_twice carol bob ⟨1⟩ ⟨2⟩
      "EOS").1 ⟨carol, 2, 0⟩ rfl rfl,
    rfl⟩

/-! ## The quota invariant -/

/-- The rows after a successful admission step are the rows before, except for the
caller's row in the per-account tier, which then satisfies the quota. -/
theorem admission_ok_rows (ctx : Context) (st st1 : Storage) (config : freeacctcfg)
    (account_creator : name) (h : freeaccounts.admission ctx st config account_creator = .ok st1) :
    ∀ x ∈ st1.whitelistedtable,
      x ∈ st.whitelistedtable ∨ (x.max_accounts > 0 ∧ x.total_accounts ≤ x.max_accounts) := by
  cases hw : table_find whitelisted.primary_key st.whitelistedtable account_creator.value with
  | none => rw [admission_absent _ _ _ _ hw] at h; cases h
  | some w =>
    by_cases hpos : w.max_accounts > 0
    · rw [admission_quota _ _ _ _ w hw hpos] at h
      split at h
      · rename_i hle
        cases h
        intro x hx
        rcases table_modify_mem whitelisted.primary_key _ _ _ w hw x hx with h1 | h1
        · left; exact h1
        · right; rw [h1]; exact ⟨hpos, hle⟩
      · cases h
    · have hzero : w.max_accounts = 0 := by omega
      rw [admission_hourly _ _ _ _ w hw hzero] at h
      split at h
      · cases h; intro x hx; left; exact hx
      · cases h

/-- C12 (amended): in every storage reachable from the empty one by `addwhitelist`,
`removewlist`, `erasewlist`, `configure` and `create` calls in which each `addwhitelist`
is given `max_accounts = 0` or `total_accounts ≤ max_accounts`, every row of
`whitelistedtable` with `max_accounts > 0` has `total_accounts ≤ max_accounts`. -/
theorem quota_invariant (self : name) (st : Storage) (h : ReachableConsistent self st) :
    ∀ w ∈ st.whitelistedtable, w.max_accounts > 0 → w.total_accounts ≤ w.max_accounts := by
  induction h with
  | init => intro w hw; cases hw
  | @step st ctx call _ _ hcall ih =>
    unfold commit
    cases hd : dispatch ctx st call with
    | error e => exact ih
    | ok r =>
      show ∀ w ∈ r.1.whitelistedtable, _
      cases call with
      | create account_creator account_name owner_pubkey active_pubkey key_prefix =>
        obtain ⟨_, _, _, st1, hadm, hwl⟩ := create_ok_frame _ _ _ _ _ _ _ r hd
        intro w hw hpos
        rw [hwl] at hw
        rcases admission_ok_rows _ _ _ _ _ hadm w hw with h1 | h1
        · rw [ctor_whitelistedtable] at h1; exact ih w h1 hpos
        · exact h1.2
      | addwhitelist account_name total_accounts max_accounts =>
        obtain ⟨_, _, _, hr⟩ := addwhitelist_ok_inv _ _ _ _ _ r hd
        rw [hr]
        intro w hw hpos
        have hw' : w ∈ st.whitelistedtable
            ++ [⟨account_name, to_uint32 total_accounts, to_uint32 max_accounts⟩] := hw
        rcases List.mem_append.1 hw' with h1 | h1
        · exact ih w h1 hpos
        · rw [List.mem_singleton] at h1
          obtain ⟨ht, hm, hc⟩ := hcall
          have e1 : to_uint32 total_accounts = total_accounts := Nat.mod_eq_of_lt ht
          have e2 : to_uint32 max_accounts = max_accounts := Nat.mod_eq_of_lt hm
          rw [h1, e1, e2] at hpos ⊢
          rcases hc with hc | hc
          · exact absurd hpos (by rw [hc]; exact Nat.lt_irrefl 0)
          · exact hc
      | removewlist account_name =>
        rw [(removewlist_ok_inv _ _ _ r hd).2.2]
        intro w hw hpos
        exact ih w (List.mem_of_mem_eraseP hw) hpos
      | erasewlist account =>
        rw [erasewlist_ok_inv _ _ _ r hd]
        intro w hw hpos
        have hw' : w ∈ (freeaccounts.freeaccounts ctx st).whitelistedtable := hw
        rw [ctor_whitelistedtable] at hw'
        exact ih w hw' hpos
      | configure m c n =>
        rw [configure_ok_inv _ _ _ _ _ r hd]
        intro w hw hpos
        have hw' : w ∈ (freeaccounts.freeaccounts ctx st).whitelistedtable := hw
        rw [ctor_whitelistedtable] at hw'
        exact ih w hw' hpos

/-- Witness of C12 (amended): `addwhitelist(alice, 0, 1)` and one `create` by alice. -/
theorem quota_invariant_witness :
    ReachableConsistent sample_self
      (commit (sample_context sample_self 1700000000 100) (whitelisted_once alice 0 1)
        (.create alice bob ⟨1⟩ ⟨2⟩ "EOS")) ∧
    (commit (sample_context sample_self 1700000000 100) (whitelisted_once alice 0 1)
        (.create alice bob ⟨1⟩ ⟨2⟩ "EOS")).whitelistedtable = [⟨alice, 1, 1⟩] ∧
    ∀ w ∈ (commit (sample_context sample_self 1700000000 100) (whitelisted_once alice 0 1)
        (.create alice bob ⟨1⟩ ⟨2⟩ "EOS")).whitelistedtable,
      w.max_accounts > 0 → w.total_accounts ≤ w.max_accounts :=
  ⟨ReachableConsistent.step _ _
      (ReachableConsistent.step _ (.addwhitelist alice 0 1) ReachableConsistent.init rfl
        (show (0 : Nat) < 2 ^ 32 ∧ (1 : Nat) < 2 ^ 32 ∧ ((1 : Nat) = 0 ∨ (0 : Nat) ≤ 1)
          from by decide)) rfl trivial,
    rfl,
    quota_invariant sample_self _
      (ReachableConsistent.step _ _
        (ReachableConsistent.step _ (.addwhitelist alice 0 1) ReachableConsistent.init rfl
          (show (0 : Nat) < 2 ^ 32 ∧ (1 : Nat) < 2 ^ 32 ∧ ((1 : Nat) = 0 ∨ (0 : Nat) ≤ 1)
            from by decide)) rfl trivial)⟩

/-- C12 (counterexample): `addwhitelist(alice, 5, 1)` on a freshly deployed contract
succeeds, so a reachable storage holds a row with `max_accounts = 1 > 0` and
`total_accounts = 5`: the invariant does not hold in every reachable storage. -/
theorem quota_invariant_broken_by_addwhitelist :
    Reachable sample_self (whitelisted_once alice 5 1) ∧
    (whitelisted_once alice 5 1).whitelistedtable = [⟨alice, 5, 1⟩] ∧
    ¬ (∀ st, Reachable sample_self st →
        ∀ w ∈ st.whitelistedtable, w.max_accounts > 0 → w.total_accounts ≤ w.max_accounts) := by
  have hreach : Reachable sample_self (whitelisted_once alice 5 1) :=
    Reachable.step _ _ Reachable.init rfl
  refine ⟨hreach, rfl, ?_⟩
  intro hall
  have := hall _ hreach ⟨alice, 5, 1⟩ (by decide) (by decide)
  exact absurd this (by decide)

/-! ## Monotonicity of `total_accounts` -/

/-- C13 (the code at the failing input): after `addwhitelist(alice, 4294967295, 7)`,
a `create` by alice succeeds and alice's `total_accounts` goes from 4294967295 to 0: it
decreases. -/
theorem create_decreases_total_accounts :
    (table_find whitelisted.primary_key (whitelisted_once alice 4294967295 7).whitelistedtable
        alice.value).map whitelisted.total_accounts = some 4294967295 ∧
    (∃ acts, dispatch (sample_context sample_self 1700000000 100)
        (whitelisted_once alice 4294967295 7) (.create alice bob ⟨1⟩ ⟨2⟩ "EOS")
      = .ok (commit (sample_context sample_self 1700000000 100)
          (whitelisted_once alice 4294967295 7) (.create alice bob ⟨1⟩ ⟨2⟩ "EOS"), acts)) ∧
    (table_find whitelisted.primary_key
        (commit (sample_context sample_self 1700000000 100)
          (whitelisted_once alice 4294967295 7)
          (.create alice bob ⟨1⟩ ⟨2⟩ "EOS")).whitelistedtable
        alice.value).map whitelisted.total_accounts = some 0 ∧
    ¬ (4294967295 ≤ 0) :=
  ⟨rfl, ⟨_, rfl⟩, rfl, by decide⟩

/-! ## The RAM market -/

/-- Without a `RAMCORE` row in the RAM market no `create` succeeds, and a `create` that
is authorised and passes the admission step stops at the dereference of the iterator:
the source has no check of the iterator and no message for a missing market row. -/
theorem create_without_market (ctx : Context) (st : Storage)
    (account_creator account_name : name) (owner_pubkey active_pubkey : public_key)
    ( key_prefix : String) (hrow : ram_market_row ctx = none) :
    (∀ r, dispatch ctx st
      (.create account_creator account_name owner_pubkey active_pubkey key_prefix) ≠ .ok r) ∧
    (ctx.has_auth account_creator = true →
      ∀ st1, freeaccounts.admission ctx (freeaccounts.freeaccounts ctx st)
        (constructed_config ctx st) account_creator = .ok st1 →
      dispatch ctx st
        (.create account_creator account_name owner_pubkey active_pubkey key_prefix)
        = .error .invalid_dereference) := by
  constructor
  · intro r hr
    obtain ⟨row, hrow', _⟩ := create_ok_market_row _ _ _ _ _ _ _ r hr
    rw [hrow] at hrow'
    cases hrow'
  · intro hauth st1 hadm
    rw [create_eq _ _ _ _ _ _ _ hauth, hadm]
    exact provision_no_row _ _ _ _ _ _ _ hrow

/-- C17 (the code at the failing input): the RAM market has no row for `RAMCORE`, and
alice, whitelisted, asks for bob; the request passes the admission step. The `create`
then does not fail with the message of a check: it is killed at the dereference of the
`end()` iterator, which the source does not compare with `end()`. Nothing is sent and
the storage, the log included, is as before. -/
theorem create_without_market_row :
    ram_market_row (marketless_context sample_self 1700000000) = none ∧
    (∃ st1, freeaccounts.admission (marketless_context sample_self 1700000000)
      (freeaccounts.freeaccounts (marketless_context sample_self 1700000000)
        (whitelisted_once alice 0 5))
      (freeaccounts.getconfig (freeaccounts.freeaccounts
        (marketless_context sample_self 1700000000) (whitelisted_once alice 0 5))).2 alice
      = .ok st1) ∧
    dispatch (marketless_context sample_self 1700000000) (whitelisted_once alice 0 5)
      (.create alice bob ⟨1⟩ ⟨2⟩ "EOS") = .error .invalid_dereference ∧
    (∀ msg, dispatch (marketless_context sample_self 1700000000) (whitelisted_once alice 0 5)
      (.create alice bob ⟨1⟩ ⟨2⟩ "EOS") ≠ .error (.check_failed msg)) ∧
    sent (marketless_context sample_self 1700000000) (whitelisted_once alice 0 5)
      (.create alice bob ⟨1⟩ ⟨2⟩ "EOS") = [] ∧
    commit (marketless_context sample_self 1700000000) (whitelisted_once alice 0 5)
      (.create alice bob ⟨1⟩ ⟨2⟩ "EOS") = whitelisted_once alice 0 5 := by
  have hd : dispatch (marketless_context sample_self 1700000000) (whitelisted_once alice 0 5)
      (.create alice bob ⟨1⟩ ⟨2⟩ "EOS") = .error .invalid_dereference := rfl
  refine ⟨rfl, ⟨_, rfl⟩, hd, ?_, rfl, rfl⟩
  intro msg h
  rw [hd] at h
  cases h

/-! ## The hourly limit over a sequence of requests -/

theorem run_creates_append (st : Storage) (done : List create_request) (r : create_request) :
    run_creates st (done ++ [r]) = commit r.ctx (run_creates st done) r.call := by
  unfold run_creates
  rw [List.foldl_append]
  rfl

theorem constructed_config_congr (ctx : Context) (s st : Storage)
    (h : s.configuration = st.configuration) :
    constructed_config ctx s = constructed_config ctx st := by
  unfold constructed_config; rw [h]

/-- An entry stored at most 3600 seconds before the request is counted by the scan, also
across the wrap-around of the 32-bit clock. -/
theorem secs_since_created_recent (ctx : Context) (t : Nat) (n : name)
    (h1 : t ≤ ctx.now) (h2 : ctx.now ≤ t + 3600) :
    freeaccounts.secs_since_created ctx ⟨n, to_uint32 t⟩ ≤ 3600 := by
  unfold freeaccounts.secs_since_created sec_since_epoch to_uint32
  simp only [Nat.reducePow]
  omega

/-- One request on a storage whose log holds the entries of earlier requests of the same
hour: it succeeds and appends its entry while the log holds fewer than `L` entries, and
aborts on the hourly limit otherwise. -/
theorem create_request_step (s : Storage) (pre : List create_request) (r : create_request)
    (cfg : freeacctcfg) (L : Nat)
    (hlog : s.freeacctslogtable = pre.map create_request.entry)
    (htime : ∀ a ∈ pre, a.ctx.now ≤ r.ctx.now ∧ r.ctx.now ≤ a.ctx.now + 3600)
    (hname : ∀ a ∈ pre, a.account_name.value ≠ r.account_name.value)
    (hauth : r.ctx.has_auth r.account_creator = true)
    (hwl : (table_find whitelisted.primary_key s.whitelistedtable r.account_creator.value).map
      whitelisted.max_accounts = some 0)
    (hcfg : constructed_config r.ctx s = cfg)
    (hL : cfg.max_accounts_per_hour = (L : Int)) (hLmax : L ≤ 32767)
    (hnet : asset_amount_in_range cfg.stake_net_tlos_amount)
    (hcpu : asset_amount_in_range cfg.stake_cpu_tlos_amount)
    (hmarket : (ram_market_row r.ctx).isSome = true) :
    (pre.length < L → ∃ acts, dispatch r.ctx s r.call
      = .ok ({ freeaccounts.freeaccounts r.ctx s with
          freeacctslogtable := (s.freeacctslogtable ++ [r.entry]) }, acts)) ∧
    (L ≤ pre.length → dispatch r.ctx s r.call
      = .error (.check_failed "You have exceeded the maximum number of accounts per hour")) := by
  obtain ⟨w, hw, hzero⟩ : ∃ w, table_find whitelisted.primary_key
      (freeaccounts.freeaccounts r.ctx s).whitelistedtable r.account_creator.value = some w ∧
      w.max_accounts = 0 := by
    rw [ctor_whitelistedtable]
    cases hf : table_find whitelisted.primary_key s.whitelistedtable r.account_creator.value with
    | none => rw [hf] at hwl; cases hwl
    | some w => rw [hf] at hwl; exact ⟨w, rfl, Option.some.inj hwl⟩
  have hcount : freeaccounts.accounts_created r.ctx
      (freeaccounts.freeaccounts r.ctx s).freeacctslogtable = pre.length := by
    rw [ctor_freeacctslogtable, accounts_created_eq, hlog, List.filter_eq_self.2, List.length_map]
    intro e he
    obtain ⟨a, ha, rfl⟩ := List.mem_map.1 he
    have := secs_since_created_recent r.ctx a.ctx.now a.account_name (htime a ha).1 (htime a ha).2
    simpa [create_request.entry, sec_since_epoch] using this
  have hlimit : ∀ k : Nat, k < to_uint64 cfg.max_accounts_per_hour ↔ k < L := by
    intro k
    rw [to_uint64_of_nonneg _ (by rw [hL]; omega) k, hL]
    exact Nat.cast_lt
  have hd : dispatch r.ctx s r.call
      = (freeaccounts.admission r.ctx (freeaccounts.freeaccounts r.ctx s) cfg
          r.account_creator).bind
          (fun st1 => freeaccounts.provision r.ctx st1 cfg r.account_creator r.account_name
            r.owner_pubkey r.active_pubkey) := by
    unfold create_request.call
    rw [create_eq _ _ _ _ _ _ _ hauth, hcfg]
  rw [hd, admission_hourly _ _ _ _ w hw hzero, hcount]
  constructor
  · intro hlt
    rw [if_pos ((hlimit _).2 hlt)]
    show ∃ acts, freeaccounts.provision r.ctx (freeaccounts.freeaccounts r.ctx s) cfg
      r.account_creator r.account_name r.owner_pubkey r.active_pubkey = _
    have hfresh : (table_find freeacctlog.primary_key
        (freeaccounts.freeaccounts r.ctx s).freeacctslogtable r.account_name.value).isSome
        = false := by
      rw [ctor_freeacctslogtable, hlog,
        (table_find_eq_none_iff freeacctlog.primary_key _ _).2]
      · rfl
      · intro hmem
        rw [List.map_map] at hmem
        obtain ⟨a, ha, hak⟩ := List.mem_map.1 hmem
        exact hname a ha hak
    obtain ⟨row, hrow⟩ := Option.isSome_iff_exists.1 hmarket
    rw [provision_eq _ _ _ _ _ _ _ row hrow, if_pos hnet, if_pos hcpu, hfresh,
      ctor_freeacctslogtable]
    exact ⟨_, rfl⟩
  · intro hge
    rw [if_neg (fun h => absurd ((hlimit _).1 h) (by omega))]
    rfl

/-- The storage after a prefix of a sequence of requests of one hour: the whitelist is
as at the start, the log holds the entries of the first `L` requests, the configuration
is the one every request reads. -/
theorem run_creates_invariant (st : Storage) (cfg : freeacctcfg) (L : Nat)
    (reqs : List create_request)
    (hlog : st.freeacctslogtable = [])
    (hcfg : ∀ r ∈ reqs, (freeaccounts.getconfig (freeaccounts.freeaccounts r.ctx st)).2 = cfg)
    (hL : cfg.max_accounts_per_hour = (L : Int)) (hLmax : L ≤ 32767)
    (hnet : asset_amount_in_range cfg.stake_net_tlos_amount)
    (hcpu : asset_amount_in_range cfg.stake_cpu_tlos_amount)
    (hauth : ∀ r ∈ reqs, r.ctx.has_auth r.account_creator = true)
    (hmarket : ∀ r ∈ reqs, (ram_market_row r.ctx).isSome = true)
    (hwl : ∀ r ∈ reqs, (table_find whitelisted.primary_key st.whitelistedtable
      r.account_creator.value).map whitelisted.max_accounts = some 0)
    (hnames : (reqs.map (fun r => r.account_name.value)).Nodup)
    (htimes : reqs.Pairwise (fun a b => a.ctx.now ≤ b.ctx.now))
    (hspan : ∀ a ∈ reqs, ∀ b ∈ reqs, b.ctx.now ≤ a.ctx.now + 3600) :
    ∀ (done rest : List create_request), reqs = done ++ rest →
      (run_creates st done).whitelistedtable = st.whitelistedtable ∧
      (run_creates st done).freeacctslogtable = (done.take L).map create_request.entry ∧
      ((run_creates st done).configuration = st.configuration ∨
        (run_creates st done).configuration = some cfg) := by
  intro done
  induction done using List.reverseRecOn with
  | nil =>
    intro rest _
    exact ⟨rfl, by rw [List.take_nil, List.map_nil]; exact hlog, Or.inl rfl⟩
  | append_singleton d x ih =>
    intro rest hsplit
    have hsplit' : reqs = d ++ x :: rest := by rw [hsplit, List.append_assoc]; rfl
    obtain ⟨ihw, ihl, ihc⟩ := ih (x :: rest) hsplit'
    have hx : x ∈ reqs := by rw [hsplit']; simp
    have hd_mem : ∀ a ∈ d, a ∈ reqs := by
      intro a ha; rw [hsplit']; exact List.mem_append_left _ ha
    have hcfgx : constructed_config x.ctx (run_creates st d) = cfg := by
      rcases ihc with h | h
      · rw [constructed_config_congr _ _ _ h]
        have := hcfg x hx
        rw [getconfig_ctor] at this
        exact this
      · exact constructed_config_of_some _ _ _ h
    have htime : ∀ a ∈ d.take L, a.ctx.now ≤ x.ctx.now ∧ x.ctx.now ≤ a.ctx.now + 3600 := by
      intro a ha
      have had : a ∈ d := List.mem_of_mem_take ha
      rw [hsplit'] at htimes
      exact ⟨(List.pairwise_append.1 htimes).2.2 a had x (List.mem_cons_self _ _),
        hspan a (hd_mem a had) x hx⟩
    have hname : ∀ a ∈ d.take L, a.account_name.value ≠ x.account_name.value := by
      intro a ha
      have had : a ∈ d := List.mem_of_mem_take ha
      rw [hsplit', List.map_append, List.map_cons] at hnames
      intro heq
      exact (List.nodup_append.1 hnames).2.2
        (List.mem_map_of_mem (fun r => r.account_name.value) had)
        (by rw [heq]; exact List.mem_cons_self _ _)
    have hwlx : (table_find whitelisted.primary_key (run_creates st d).whitelistedtable
        x.account_creator.value).map whitelisted.max_accounts = some 0 := by
      rw [ihw]; exact hwl x hx
    obtain ⟨hok, herr⟩ := create_request_step (run_creates st d) (d.take L) x cfg L ihl htime
      hname (hauth x hx) hwlx hcfgx hL hLmax hnet hcpu (hmarket x hx)
    rw [run_creates_append]
    by_cases hlt : d.length < L
    · have htl : (d.take L).length < L := by rw [List.length_take]; omega
      obtain ⟨acts, hdisp⟩ := hok htl
      have hcommit : commit x.ctx (run_creates st d) x.call
          = { freeaccounts.freeaccounts x.ctx (run_creates st d) with
              freeacctslogtable := ((run_creates st d).freeacctslogtable ++ [x.entry]) } := by
        unfold commit; rw [hdisp]
      rw [hcommit]
      refine ⟨?_, ?_, Or.inr ?_⟩
      · show (freeaccounts.freeaccounts x.ctx (run_creates st d)).whitelistedtable = _
        rw [ctor_whitelistedtable]; exact ihw
      · show (run_creates st d).freeacctslogtable ++ [x.entry] = _
        rw [ihl, List.take_of_length_le (by omega), List.take_of_length_le
          (by rw [List.length_append, List.length_singleton]; omega), List.map_append]
        rfl
      · show (freeaccounts.freeaccounts x.ctx (run_creates st d)).configuration = _
        rw [ctor_configuration, hcfgx]
    · have htl : L ≤ (d.take L).length := by rw [List.length_take]; omega
      have hdisp := herr htl
      have hcommit : commit x.ctx (run_creates st d) x.call = run_creates st d := by
        unfold commit; rw [hdisp]
      rw [hcommit]
      refine ⟨ihw, ?_, ihc⟩
      rw [ihl, List.take_append_of_le_length (by omega)]

/-- C14 (amended): start from an empty log, with a configuration whose hourly limit is
`L` (50 in the initial configuration) and whose stake amounts are asset amounts. Take any
sequence of `create` requests, for pairwise distinct account names, each authorised by
its caller and made while the RAM market holds a `RAMCORE` row, the callers whitelisted
with `max_accounts == 0`, at non-decreasing times that lie within one span of 3600
seconds. Then each of the first `L` requests succeeds and appends its entry to the log,
and every request after them, the `(L+1)`th first, aborts with "You have exceeded the
maximum number of accounts per hour". -/
theorem hourly_limit_over_sequence (st : Storage) (cfg : freeacctcfg) (L : Nat)
    (reqs : List create_request)
    (hlog : st.freeacctslogtable = [])
    (hcfg : ∀ r ∈ reqs, (freeaccounts.getconfig (freeaccounts.freeaccounts r.ctx st)).2 = cfg)
    (hL : cfg.max_accounts_per_hour = (L : Int)) (hLmax : L ≤ 32767)
    (hnet : asset_amount_in_range cfg.stake_net_tlos_amount)
    (hcpu : asset_amount_in_range cfg.stake_cpu_tlos_amount)
    (hauth : ∀ r ∈ reqs, r.ctx.has_auth r.account_creator = true)
    (hmarket : ∀ r ∈ reqs, (ram_market_row r.ctx).isSome = true)
    (hwl : ∀ r ∈ reqs, (table_find whitelisted.primary_key st.whitelistedtable
      r.account_creator.value).map whitelisted.max_accounts = some 0)
    (hnames : (reqs.map (fun r => r.account_name.value)).Nodup)
    (htimes : reqs.Pairwise (fun a b => a.ctx.now ≤ b.ctx.now))
    (hspan : ∀ a ∈ reqs, ∀ b ∈ reqs, b.ctx.now ≤ a.ctx.now + 3600) :
    ∀ (done : List create_request) (r : create_request) (rest : List create_request),
      reqs = done ++ r :: rest →
      (done.length < L →
        (∃ acts, dispatch r.ctx (run_creates st done) r.call
          = .ok (run_creates st (done ++ [r]), acts)) ∧
        (run_creates st (done ++ [r])).freeacctslogtable
          = (run_creates st done).freeacctslogtable ++ [r.entry]) ∧
      (L ≤ done.length →
        dispatch r.ctx (run_creates st done) r.call = .error (.check_failed
          "You have exceeded the maximum number of accounts per hour") ∧
        run_creates st (done ++ [r]) = run_creates st done) := by
  intro done r rest hsplit
  obtain ⟨ihw, ihl, ihc⟩ := run_creates_invariant st cfg L reqs hlog hcfg hL hLmax hnet hcpu
    hauth hmarket hwl hnames htimes hspan done (r :: rest) hsplit
  have hr : r ∈ reqs := by rw [hsplit]; simp
  have hd_mem : ∀ a ∈ done, a ∈ reqs := by
    intro a ha; rw [hsplit]; exact List.mem_append_left _ ha
  have hcfgr : constructed_config r.ctx (run_creates st done) = cfg := by
    rcases ihc with h | h
    · rw [constructed_config_congr _ _ _ h]
      have := hcfg r hr
      rw [getconfig_ctor] at this
      exact this
    · exact constructed_config_of_some _ _ _ h
  have htime : ∀ a ∈ done.take L, a.ctx.now ≤ r.ctx.now ∧ r.ctx.now ≤ a.ctx.now + 3600 := by
    intro a ha
    have had : a ∈ done := List.mem_of_mem_take ha
    rw [hsplit] at htimes
    exact ⟨(List.pairwise_append.1 htimes).2.2 a had r (List.mem_cons_self _ _),
      hspan a (hd_mem a had) r hr⟩
  have hname : ∀ a ∈ done.take L, a.account_name.value ≠ r.account_name.value := by
    intro a ha
    have had : a ∈ done := List.mem_of_mem_take ha
    rw [hsplit, List.map_append, List.map_cons] at hnames
    intro heq
    exact (List.nodup_append.1 hnames).2.2
      (List.mem_map_of_mem (fun r => r.account_name.value) had)
      (by rw [heq]; exact List.mem_cons_self _ _)
  have hwlr : (table_find whitelisted.primary_key (run_creates st done).whitelistedtable
      r.account_creator.value).map whitelisted.max_accounts = some 0 := by
    rw [ihw]; exact hwl r hr
  obtain ⟨hok, herr⟩ := create_request_step (run_creates st done) (done.take L) r cfg L ihl
    htime hname (hauth r hr) hwlr hcfgr hL hLmax hnet hcpu (hmarket r hr)
  constructor
  · intro hlt
    have htl : (done.take L).length < L := by rw [List.length_take]; omega
    obtain ⟨acts, hdisp⟩ := hok htl
    have hcommit : run_creates st (done ++ [r])
        = { freeaccounts.freeaccounts r.ctx (run_creates st done) with
            freeacctslogtable := ((run_creates st done).freeacctslogtable ++ [r.entry]) } := by
      rw [run_creates_append]; unfold commit; rw [hdisp]
    refine ⟨⟨acts, ?_⟩, ?_⟩
    · rw [hcommit]; exact hdisp
    · rw [hcommit]
  · intro hge
    have htl : L ≤ (done.take L).length := by rw [List.length_take]; omega
    have hdisp := herr htl
    refine ⟨hdisp, ?_⟩
    rw [run_creates_append]; unfold commit; rw [hdisp]

/-- Witness of C14 (amended): with an hourly limit of 2, alice's requests for `bob` and `carol`
succeed and her request for `dave`, 3600 seconds after the first, aborts. -/
theorem hourly_limit_over_sequence_witness :
    limit_two_storage.freeacctslogtable = [] ∧
    (three_requests.map (fun r => r.account_name.value)).Nodup ∧
    three_requests.Pairwise (fun a b => a.ctx.now ≤ b.ctx.now) ∧
    (∀ a ∈ three_requests, ∀ b ∈ three_requests, b.ctx.now ≤ a.ctx.now + 3600) ∧
    ((∃ acts, dispatch request_carol.ctx (run_creates limit_two_storage [request_bob])
        request_carol.call
        = .ok (run_creates limit_two_storage ([request_bob] ++ [request_carol]), acts)) ∧
      (run_creates limit_two_storage ([request_bob] ++ [request_carol])).freeacctslogtable
        = (run_creates limit_two_storage [request_bob]).freeacctslogtable
          ++ [request_carol.entry]) ∧
    (dispatch request_dave.ctx (run_creates limit_two_storage [request_bob, request_carol])
        request_dave.call = .error (.check_failed
          "You have exceeded the maximum number of accounts per hour") ∧
      run_creates limit_two_storage ([request_bob, request_carol] ++ [request_dave])
        = run_creates limit_two_storage [request_bob, request_carol]) ∧
    (run_creates limit_two_storage three_requests).freeacctslogtable
      = [⟨bob, 1700000000⟩, ⟨carol, 1700000100⟩] :=
  ⟨rfl, by decide, by decide, by decide,
    (hourly_limit_over_sequence limit_two_storage ⟨sample_self, 2, 9000, 1000⟩ 2 three_requests
      rfl (by decide) rfl (by decide) (by decide) (by decide) (by decide) (by decide)
      (by decide) (by decide) (by decide) (by decide) [request_bob] request_carol
      [request_dave] rfl).1
      (by decide),
    (hourly_limit_over_sequence limit_two_storage ⟨sample_self, 2, 9000, 1000⟩ 2 three_requests
      rfl (by decide) rfl (by decide) (by decide) (by decide) (by decide) (by decide)
      (by decide) (by decide) (by decide) (by decide) [request_bob, request_carol]
      request_dave [] rfl).2
      (by decide),
    rfl⟩

/-- Witness of C15: alice creates bob at time 1700000000 on a contract that whitelisted
her; the log gains the entry `(bob, 1700000000)`. A second `addwhitelist` of alice, which
aborts, leaves the log as it was. -/
theorem log_append_only_witness :
    (commit (sample_context sample_self 1700000000 100) (whitelisted_once alice 0 5)
        (.create alice bob ⟨1⟩ ⟨2⟩ "EOS")).freeacctslogtable
      = (whitelisted_once alice 0 5).freeacctslogtable ++ [⟨bob, 1700000000⟩] ∧
    (commit (sample_context sample_self 1700000100 100)
        (commit (sample_context sample_self 1700000000 100) (whitelisted_once alice 0 5)
          (.create alice bob ⟨1⟩ ⟨2⟩ "EOS"))
        (.addwhitelist alice 0 5)).freeacctslogtable
      = (commit (sample_context sample_self 1700000000 100) (whitelisted_once alice 0 5)
          (.create alice bob ⟨1⟩ ⟨2⟩ "EOS")).freeacctslogtable :=
  ⟨((log_append_only (sample_context sample_self 1700000000 100)
      (whitelisted_once alice 0 5)).1 alice bob ⟨1⟩ ⟨2⟩ "EOS").1 _ rfl,
    (log_append_only (sample_context sample_self 1700000100 100) _).2.1 alice 0 5⟩

/-! ## The configurations the contract stores -/

/-- The configuration the constructor stores is within the ranges of the data model. -/
theorem constructed_config_in_range (ctx : Context) (st : Storage)
    (h : ∀ c, st.configuration = some c → c.in_range) :
    (constructed_config ctx st).in_range := by
  unfold constructed_config
  cases hc : st.configuration with
  | some c => exact h c hc
  | none =>
    have h1 : cfg_hour_field (to_int16 50) = 50 := by decide
    have h2 : cfg_stake_field (to_int16 9000) = 9000 := by decide
    have h3 : cfg_stake_field (to_int16 1000) = 1000 := by decide
    show (0 ≤ cfg_hour_field (to_int16 50) ∧ cfg_hour_field (to_int16 50) ≤ 1000) ∧
      (100 ≤ cfg_stake_field (to_int16 9000) ∧ cfg_stake_field (to_int16 9000) ≤ 50000) ∧
      (100 ≤ cfg_stake_field (to_int16 1000) ∧ cfg_stake_field (to_int16 1000) ≤ 50000)
    rw [h1, h2, h3]
    decide

/-- In every reachable storage the stored configuration, when there is one, is within
the ranges of the data model: the constructor stores 50, 9000 and 1000, and `configure`
stores only values that passed its range checks. -/
theorem reachable_config_in_range (self : name) (st : Storage) (h : Reachable self st) :
    ∀ c, st.configuration = some c → c.in_range := by
  induction h with
  | init => intro c hc; cases hc
  | @step st ctx call _ _ ih =>
    have hcc := constructed_config_in_range ctx st ih
    unfold commit
    cases hd : dispatch ctx st call with
    | error e => exact ih
    | ok r =>
      show ∀ c, r.1.configuration = some c → c.in_range
      have hsame : r.1.configuration = some (constructed_config ctx st) →
          ∀ c, r.1.configuration = some c → c.in_range := by
        intro h1 c hc
        rw [h1] at hc
        rw [← Option.some.inj hc]; exact hcc
      cases call with
      | create account_creator account_name owner_pubkey active_pubkey key_prefix =>
        exact hsame (create_ok_frame _ _ _ _ _ _ _ r hd).2.1
      | addwhitelist account_name total_accounts max_accounts =>
        apply hsame
        rw [(addwhitelist_ok_inv _ _ _ _ _ r hd).2.2.2]
        exact ctor_configuration ctx st
      | removewlist account_name =>
        apply hsame
        rw [(removewlist_ok_inv _ _ _ r hd).2.2]
        exact ctor_configuration ctx st
      | erasewlist account =>
        apply hsame
        rw [erasewlist_ok_inv _ _ _ r hd]
        exact ctor_configuration ctx st
      | configure m c n =>
        cases hauth : ctx.has_auth ctx.self with
        | false => rw [configure_unauthorised _ _ _ _ _ hauth] at hd; cases hd
        | true =>
          rw [configure_eq _ _ _ _ _ hauth] at hd
          split at hd
          · rename_i hm
            split at hd
            · rename_i hc
              split at hd
              · rename_i hn
                cases hd
                intro c' hc'
                have h16 : cfg_hour_field m = m := to_int16_of_range m (by omega)
                have hc64 : cfg_stake_field c = c := to_int64_of_range c (by omega)
                have hn64 : cfg_stake_field n = n := to_int64_of_range n (by omega)
                rw [← Option.some.inj hc']
                unfold freeacctcfg.in_range
                simp only [h16, hc64, hn64]
                exact ⟨hm, hc, hn⟩
              · cases hd
            · cases hd
          · cases hd

/-- C14 (counterexample): with an hourly limit of 2, an empty log and three requests of
alice, whitelisted with `max_accounts == 0`, at non-decreasing times within one hour,
the first two for the same name `bob`: the second request, one of the first two, aborts
on the duplicate key and appends nothing, and the third request succeeds instead of
aborting on the hourly limit. And a first request made while the RAM market has no
`RAMCORE` row is killed at the dereference instead of appending its entry. -/
theorem hourly_limit_sequence_needs_new_names_and_market :
    limit_two_storage.freeacctslogtable = [] ∧
    (freeaccounts.getconfig limit_two_storage).2.max_accounts_per_hour = 2 ∧
    repeated_requests.length = 2 + 1 ∧
    (∀ r ∈ repeated_requests, r.ctx.has_auth r.account_creator = true ∧
      (table_find whitelisted.primary_key limit_two_storage.whitelistedtable
        r.account_creator.value).map whitelisted.max_accounts = some 0) ∧
    repeated_requests.Pairwise (fun a b => a.ctx.now ≤ b.ctx.now) ∧
    (∀ a ∈ repeated_requests, ∀ b ∈ repeated_requests, b.ctx.now ≤ a.ctx.now + 3600) ∧
    dispatch request_bob_again.ctx (run_creates limit_two_storage [request_bob])
      request_bob_again.call = .error .duplicate_key ∧
    run_creates limit_two_storage [request_bob, request_bob_again]
      = run_creates limit_two_storage [request_bob] ∧
    (∃ acts, dispatch request_carol.ctx
      (run_creates limit_two_storage [request_bob, request_bob_again]) request_carol.call
      = .ok (run_creates limit_two_storage repeated_requests, acts)) ∧
    (run_creates limit_two_storage repeated_requests).freeacctslogtable
      = [⟨bob, 1700000000⟩, ⟨carol, 1700000100⟩] ∧
    dispatch request_bob_marketless.ctx limit_two_storage request_bob_marketless.call
      = .error .invalid_dereference ∧
    run_creates limit_two_storage [request_bob_marketless] = limit_two_storage :=
  ⟨rfl, rfl, rfl, by decide, by decide, by decide, rfl, rfl, ⟨_, rfl⟩, rfl, rfl, rfl⟩

end TelosFree
